import Mathlib

/-!
Verification of the `tools/release_builder.py` release pipeline.

This file gives a shallow embedding of the pipeline's pure logic:
string rewriting, regex-based artifact URL extraction, the JSON metadata
update (the `package.json` rewrite with `indent=2, sort_keys=True`
serialization), the S3 mirror preflight/upload control flow, the
universe-revision numbering and diff computation, stub-universe name
extraction, and the process exit-code logic.  External effects
(filesystem listings, command exit codes, HTTP responses) are passed in
explicitly as data; each model function is documented with the Python
code it embeds.
-/

namespace ReleaseBuilder

/-- The character `{`, written via its code point. -/
def lbrace : Char := Char.ofNat 123

/-- The character `}`, written via its code point. -/
def rbrace : Char := Char.ofNat 125

/-- Whitespace characters skipped by the JSON reader. -/
def isWsChar (c : Char) : Bool :=
  c = ' ' || c = '\n' || c = '\t' || c = '\r'

/-- Drop leading JSON whitespace. -/
def skipWs (l : List Char) : List Char := l.dropWhile isWsChar

/-- A run of `n` spaces, as used by two-space JSON indentation. -/
def spaces (n : Nat) : List Char := List.replicate n ' '

/-- Does `a` occur as a contiguous sublist of `s`?  (Substring test.) -/
def containsSub (a : List Char) : List Char → Bool
  | [] => a.isEmpty
  | c :: cs => a.isPrefixOf (c :: cs) || containsSub a cs

/-- Fuel-driven engine for Python `str.replace` with a nonempty pattern:
replace leftmost, non-overlapping occurrences of `pat` by `b`, scanning
left to right.  Fuel at least the input length keeps it total. -/
def replaceFuel (pat b : List Char) : Nat → List Char → List Char
  | _, [] => []
  | 0, l => l
  | f + 1, c :: cs =>
    if pat.isPrefixOf (c :: cs) then
      b ++ replaceFuel pat b f (cs.drop (pat.length - 1))
    else
      c :: replaceFuel pat b f cs

/-- Model of Python `s.replace(a, b)` (the tool only uses it with the
nonempty artifact prefix as pattern; the empty pattern is left as the
identity here). -/
def pyReplace (a b s : String) : String :=
  if a.data.isEmpty then s
  else (replaceFuel a.data b.data s.data.length s.data).asString

/-- String-level substring test. -/
def containsSubS (a s : String) : Bool := containsSub a.data s.data

/-- Split a character list on a separator character, Python
`str.split(sep)` style: `splitOnChar '/' "a//b" = ["a", "", "b"]`. -/
def splitOnChar (sep : Char) (s : List Char) : List (List Char) :=
  s.foldr
    (fun c acc =>
      if c = sep then [] :: acc
      else
        match acc with
        | [] => [[c]]
        | g :: gs => (c :: g) :: gs)
    [[]]

/-- Model of Python `url.split('/')[-1]`. -/
def urlBasename (url : String) : String :=
  ((splitOnChar '/' url.data).getLastD []).asString

/-- Model of Python `'/'.join(url.split('/')[:-1])`: the URL with its
final path segment removed. -/
def urlDirname (url : String) : String :=
  (List.intercalate ['/'] (splitOnChar '/' url.data).dropLast).asString

/-- Decimal digit characters of `n`, most significant first, with an
explicit fuel so that the definition is structural.  `fuel > n` works. -/
def natCharsAux : Nat → Nat → List Char
  | 0, _ => []
  | fuel + 1, n =>
    if n < 10 then [Nat.digitChar n]
    else natCharsAux fuel (n / 10) ++ [Nat.digitChar (n % 10)]

/-- Decimal representation of a natural number, matching Python `str(n)`. -/
def natChars (n : Nat) : List Char := natCharsAux (n + 1) n

/-- Decimal representation of an integer, matching Python `str(i)`. -/
def intChars (i : Int) : List Char :=
  if i < 0 then '-' :: natChars i.natAbs else natChars i.natAbs

/-- Integer rendering as a string, matching Python `str(i)`. -/
def intStr (i : Int) : String := (intChars i).asString

/-- Numeric value of a list of decimal digit characters. -/
def digitsVal (l : List Char) : Nat :=
  l.foldl (fun acc c => acc * 10 + (c.toNat - 48)) 0

/-- Model of Python `int(s)` on the forms the tool meets: optional
surrounding ASCII whitespace, an optional sign, then one or more decimal
digits.  Anything else raises `ValueError`, which the caller's bare
`except` turns into a skip; that is `none` here. -/
def pyInt (s : String) : Option Int :=
  let t := ((s.data.dropWhile isWsChar).reverse.dropWhile isWsChar).reverse
  match t with
  | '+' :: ds =>
    if ds ≠ [] ∧ ds.all Char.isDigit then some (Int.ofNat (digitsVal ds)) else none
  | '-' :: ds =>
    if ds ≠ [] ∧ ds.all Char.isDigit then some (-(Int.ofNat (digitsVal ds))) else none
  | ds =>
    if ds ≠ [] ∧ ds.all Char.isDigit then some (Int.ofNat (digitsVal ds)) else none

/-! ## JSON values

Model of the JSON documents handled by `json.loads` / `json.dumps` in
`_update_package_get_artifact_source_urls`.  A single inductive type is
used: array contents are spines built from `anil`/`acons`, and object
contents are spines built from `onil`/`ocons`, so that every function on
JSON data is plain structural recursion (and hence computes inside the
kernel).  The well-formedness predicate `wf` cuts the type down to the
shapes that represent actual JSON documents. -/

/-- JSON values and array/object spines (floats are outside the modelled
fragment). -/
inductive J : Type where
  | null : J
  | jbool : Bool → J
  | jint : Int → J
  | jstr : String → J
  | arr : J → J
  | anil : J
  | acons : J → J → J
  | obj : J → J
  | onil : J
  | ocons : String → J → J → J
  deriving DecidableEq

/-- Is this constructor a JSON value proper (not a spine node)? -/
def isVal : J → Bool
  | .anil => false
  | .acons _ _ => false
  | .onil => false
  | .ocons _ _ _ => false
  | _ => true

/-- First value bound to key `k` in an object spine, Python `d[k]`. -/
def lookupJ (k : String) : J → Option J
  | .ocons k2 v t => if k2 = k then some v else lookupJ k t
  | _ => none

/-- Does the object spine bind key `k`? -/
def hasKey (k : String) : J → Bool
  | .ocons k2 _ t => k2 = k || hasKey k t
  | _ => false

/-- Model of Python `d[k] = v` on an insertion-ordered dict: overwrite
in place if the key exists, otherwise append at the end. -/
def pySetItem (k : String) (v : J) : J → J
  | .ocons k2 v2 t => if k2 = k then .ocons k2 v t else .ocons k2 v2 (pySetItem k v t)
  | _ => .ocons k v .onil

/-- Lexicographic code-point comparison on character lists, the order
Python compares strings in. -/
def strLeCh : List Char → List Char → Bool
  | [], _ => true
  | _ :: _, [] => false
  | a :: as, b :: bs =>
    if a.toNat < b.toNat then true
    else if b.toNat < a.toNat then false
    else strLeCh as bs

/-- Python string order `a <= b` (code-point lexicographic). -/
def strLe (a b : String) : Bool := strLeCh a.data b.data

/-- Insert a field into a key-sorted object spine, keeping it sorted. -/
def insertSorted (k : String) (v : J) : J → J
  | .ocons k2 v2 t =>
    if strLe k k2 then .ocons k v (.ocons k2 v2 t) else .ocons k2 v2 (insertSorted k v t)
  | s => .ocons k v s

/-- Sort an object spine's fields by key (insertion sort), the order
`sort_keys=True` serializes in. -/
def sortKeysJ : J → J
  | .ocons k v t => insertSorted k v (sortKeysJ t)
  | s => s

/-- Recursively sort all object keys; `json.dumps(v, sort_keys=True)`
prints a value exactly as the plain printer prints `canon v`. -/
def canon : J → J
  | .arr s => .arr (canon s)
  | .acons v t => .acons (canon v) (canon t)
  | .obj s => .obj (sortKeysJ (canon s))
  | .ocons k v t => .ocons k (canon v) (canon t)
  | x => x

/-- Characters representable verbatim in a JSON string literal without
escaping (printable ASCII, no quote, no backslash); on strings made of
these, Python `json.dumps` emits the text unchanged between quotes. -/
def safeChar (c : Char) : Bool :=
  32 ≤ c.toNat && c.toNat < 127 && c ≠ '"' && c ≠ '\\'

/-- A string needing no JSON escaping. -/
def safeStr (s : String) : Bool := s.data.all safeChar

/-- Is this an array spine (of value nodes)? -/
def aSpine : J → Bool
  | .anil => true
  | .acons v t => isVal v && aSpine t
  | _ => false

/-- Is this an object spine (of value nodes)? -/
def oSpine : J → Bool
  | .onil => true
  | .ocons _ v t => isVal v && oSpine t
  | _ => false

/-- Well-formedness: spines are where they should be, every string and
key is escape-free, and every object has distinct keys.  On such values
the printer below agrees with Python `json.dumps`. -/
def wf : J → Bool
  | .null => true
  | .jbool _ => true
  | .jint _ => true
  | .jstr s => safeStr s
  | .arr s => aSpine s && wf s
  | .anil => true
  | .acons v t => isVal v && wf v && wf t
  | .obj s => oSpine s && wf s
  | .onil => true
  | .ocons k v t => safeStr k && !hasKey k t && isVal v && wf v && wf t

/-- Node-count measure used for parser fuel accounting. -/
def sz : J → Nat
  | .null => 1
  | .jbool _ => 1
  | .jint _ => 1
  | .jstr _ => 1
  | .arr s => 1 + sz s
  | .anil => 1
  | .acons v t => 1 + sz v + sz t
  | .obj s => 1 + sz s
  | .onil => 1
  | .ocons _ v t => 1 + sz v + sz t

/-- Printer matching `json.dumps(v, indent=2)` after the tool's
per-line `rstrip()` fix-up: two-space indentation, `": "` after keys, a
comma and newline between items, and no trailing spaces.  On an array or
object spine it prints the comma/newline-separated items themselves. -/
def printVal (ind : Nat) : J → List Char
  | .null => ['n', 'u', 'l', 'l']
  | .jbool true => ['t', 'r', 'u', 'e']
  | .jbool false => ['f', 'a', 'l', 's', 'e']
  | .jint n => intChars n
  | .jstr s => '"' :: (s.data ++ ['"'])
  | .arr .anil => ['[', ']']
  | .arr (.acons v t) =>
    '[' :: '\n' :: (spaces (ind + 2) ++ printVal (ind + 2) (.acons v t) ++
      '\n' :: (spaces ind ++ [']']))
  | .arr x => printVal ind x
  | .anil => []
  | .acons v .anil => printVal ind v
  | .acons v t => printVal ind v ++ ',' :: '\n' :: (spaces ind ++ printVal ind t)
  | .obj .onil => [lbrace, rbrace]
  | .obj (.ocons k v t) =>
    lbrace :: '\n' :: (spaces (ind + 2) ++ printVal (ind + 2) (.ocons k v t) ++
      '\n' :: (spaces ind ++ [rbrace]))
  | .obj x => printVal ind x
  | .onil => []
  | .ocons k v .onil => '"' :: (k.data ++ '"' :: ':' :: ' ' :: printVal ind v)
  | .ocons k v t =>
    ('"' :: (k.data ++ '"' :: ':' :: ' ' :: printVal ind v)) ++
      ',' :: '\n' :: (spaces ind ++ printVal ind t)

/-- Read a JSON string literal body after its opening quote; escape
sequences are outside the modelled fragment. -/
def parseStrLit (l : List Char) : Option (String × List Char) :=
  match l.dropWhile (fun c => c ≠ '"') with
  | _ :: rest => some ((l.takeWhile (fun c => c ≠ '"')).asString, rest)
  | [] => none

/-- Read a run of decimal digits. -/
def parseNatLit (l : List Char) : Option (Nat × List Char) :=
  let ds := l.takeWhile Char.isDigit
  if ds.isEmpty then none else some (digitsVal ds, l.dropWhile Char.isDigit)

/-- Read an optionally negated run of decimal digits. -/
def parseIntLit (l : List Char) : Option (Int × List Char) :=
  match l with
  | c :: rest =>
    if c = '-' then (parseNatLit rest).map (fun p => (-(Int.ofNat p.1), p.2))
    else (parseNatLit (c :: rest)).map (fun p => (Int.ofNat p.1, p.2))
  | [] => none

/-- Modes of the JSON reader: a value, the rest of an array after `[`,
or the rest of an object after the opening brace. -/
inductive PMode : Type where
  | val : PMode
  | arrRest : PMode
  | objRest : PMode

/-- Recursive-descent JSON reader (model of `json.loads` on the
modelled fragment), fuel-driven so that it is structural.  In `arrRest`
and `objRest` modes it returns the corresponding spine. -/
def parseAux : Nat → PMode → List Char → Option (J × List Char)
  | 0, _, _ => none
  | f + 1, .val, l =>
    match skipWs l with
    | [] => none
    | c :: rest =>
      if c = lbrace then (parseAux f .objRest rest).map (fun p => (J.obj p.1, p.2))
      else if c = '[' then (parseAux f .arrRest rest).map (fun p => (J.arr p.1, p.2))
      else if c = '"' then (parseStrLit rest).map (fun p => (J.jstr p.1, p.2))
      else if c = 't' then
        if ['r', 'u', 'e'].isPrefixOf rest then some (J.jbool true, rest.drop 3) else none
      else if c = 'f' then
        if ['a', 'l', 's', 'e'].isPrefixOf rest then some (J.jbool false, rest.drop 4) else none
      else if c = 'n' then
        if ['u', 'l', 'l'].isPrefixOf rest then some (J.null, rest.drop 3) else none
      else if c = '-' || c.isDigit then
        (parseIntLit (c :: rest)).map (fun p => (J.jint p.1, p.2))
      else none
  | f + 1, .arrRest, l =>
    match skipWs l with
    | [] => none
    | c :: rest =>
      if c = ']' then some (J.anil, rest)
      else
        match parseAux f .val (c :: rest) with
        | none => none
        | some (v, r) =>
          match skipWs r with
          | [] => none
          | c2 :: r2 =>
            if c2 = ',' then
              match parseAux f .arrRest r2 with
              | some (t, r3) => some (J.acons v t, r3)
              | none => none
            else if c2 = ']' then some (J.acons v J.anil, r2)
            else none
  | f + 1, .objRest, l =>
    match skipWs l with
    | [] => none
    | c :: rest =>
      if c = rbrace then some (J.onil, rest)
      else if c = '"' then
        match parseStrLit rest with
        | none => none
        | some (k, r) =>
          match skipWs r with
          | [] => none
          | c2 :: r2 =>
            if c2 = ':' then
              match parseAux f .val r2 with
              | none => none
              | some (v, r3) =>
                match skipWs r3 with
                | [] => none
                | c3 :: r4 =>
                  if c3 = ',' then
                    match parseAux f .objRest r4 with
                    | some (t, r5) => some (J.ocons k v t, r5)
                    | none => none
                  else if c3 = rbrace then some (J.ocons k v J.onil, r4)
                  else none
            else none
      else none

/-- Model of `json.loads` on the modelled fragment: parse one value and
require only whitespace after it. -/
def loads (s : String) : Option J :=
  match parseAux (s.length + 1) .val s.data with
  | some (v, rest) => if skipWs rest = [] then some v else none
  | none => none

/-- The field updates of `_update_package_get_artifact_source_urls`
step 1: set `version`, set `packagingVersion` to `'3.0'`, and set
`minDcosReleaseVersion` unless the configured value is falsy (`'0'`
maps to `None`, and the empty string is falsy as well). -/
def updateFields (pkgVersion minDcos : String) (l : J) : J :=
  let l1 := pySetItem "version" (.jstr pkgVersion) l
  let l2 := pySetItem "packagingVersion" (.jstr "3.0") l1
  if minDcos = "0" || minDcos = "" then l2
  else pySetItem "minDcosReleaseVersion" (.jstr minDcos) l2

/-- Serialization used when writing `package.json` back: `json.dumps`
with `indent=2, sort_keys=True`, each line right-stripped, and a final
newline appended. -/
def dumpsPkgJson (v : J) : String := (printVal 0 (canon v)).asString ++ "\n"

/-! ## Regex models

The tool uses two regular expressions: `'.+/stub-universe-(.+).zip$'`
(via `re.match`) to extract the package name, and
`'({}/.+)"'.format(original_artifact_prefix)` (via `re.findall`) to
collect artifact URLs.  Both are modelled with Python `re` semantics:
`.` matches any character except a newline (this includes the literal
dots interpolated into the pattern from the URL prefix), `.+` is greedy
with backtracking, and `$` also matches just before one trailing
newline.  The interpolated prefixes contain no regex metacharacters
other than `.` in the uses the tool makes. -/

/-- Match a literal pattern (with `.` as the any-but-newline wildcard)
against the front of `s`, returning the consumed text and the rest. -/
def matchLit : List Char → List Char → Option (List Char × List Char)
  | [], s => some ([], s)
  | _ :: _, [] => none
  | p :: ps, c :: cs =>
    if (p = '.' && c ≠ '\n') || p = c then
      (matchLit ps cs).map (fun q => (c :: q.1, q.2))
    else none

/-- Largest index `i ≥ 1` at which character `c` occurs in `l`. -/
def lastIdxGe1 (c : Char) (l : List Char) : Option Nat :=
  (List.range l.length).reverse.findSome?
    (fun i => if 1 ≤ i ∧ l[i]? = some c then some i else none)

/-- Try the pattern `<pat>.+"` at the very front of `s` (greedy `.+`, so
the quote used is the last one on the current line); returns the capture
group and the input after the match. -/
def tryMatchAt (pat : List Char) (s : List Char) : Option (List Char × List Char) :=
  match matchLit pat s with
  | none => none
  | some (con, rest) =>
    let line := rest.takeWhile (fun c => c ≠ '\n')
    match lastIdxGe1 '"' line with
    | none => none
    | some q => some (con ++ line.take q, rest.drop (q + 1))

/-- Scan for all non-overlapping, leftmost matches, resuming after each
match; fuel at least the input length plus one keeps this total. -/
def findallAux (pat : List Char) : Nat → List Char → List (List Char)
  | 0, _ => []
  | _, [] => []
  | f + 1, c :: cs =>
    match tryMatchAt pat (c :: cs) with
    | some (grp, rest) => grp :: findallAux pat f rest
    | none => findallAux pat f cs

/-- Model of `re.findall('({}/.+)"'.format(origPfx), content)`. -/
def findallArtifacts (origPfx content : String) : List String :=
  (findallAux (origPfx.data ++ ['/']) (content.data.length + 1) content.data).map
    List.asString

/-! ## The Metadata Rewriter

Model of `_update_package_get_artifact_source_urls` plus
`_update_file_content`.  A package directory is a list of
`(filename, content)` pairs in `os.listdir` order; the function returns
the rewritten directory, the collected Artifact URL Set, and the names
of the files actually written (a file is written only when its content
changed). -/

/-- Configuration consumed by the Metadata Rewriter. -/
structure RWConfig : Type where
  pkgVersion : String
  minDcosVersion : String
  stubUniverseUrl : String
  releaseHttpDir : String
  deriving DecidableEq

/-- The original artifact prefix: the stub universe URL minus its final
path segment (`'/'.join(url.split('/')[:-1])`). -/
def origPfx (cfg : RWConfig) : String := urlDirname cfg.stubUniverseUrl

/-- Step 1 of the rewrite on `package.json` text: parse, set
`version` / `packagingVersion` / `minDcosReleaseVersion`, and reserialize
canonically.  `none` models the Python exceptions (parse failure, or a
non-object document rejecting item assignment). -/
def stepA (cfg : RWConfig) (c0 : String) : Option String :=
  match loads c0 with
  | some (J.obj fields) =>
    some (dumpsPkgJson (J.obj (updateFields cfg.pkgVersion cfg.minDcosVersion fields)))
  | _ => none

/-- Model of `_update_package_get_artifact_source_urls`: returns
`(rewritten files, artifact URL list, written filenames)`; `none` models
the exceptions (missing or unparsable `package.json`). -/
def updatePackage (cfg : RWConfig) (files : List (String × String)) :
    Option (List (String × String) × List String × List String) :=
  match files.find? (fun f => f.1 = "package.json") with
  | none => none
  | some f0 =>
    match stepA cfg f0.2 with
    | none => none
    | some c1 =>
      let files1 := files.map (fun f => if f.1 = "package.json" then (f.1, c1) else f)
      let a := origPfx cfg
      let b := cfg.releaseHttpDir
      let files2 := files1.map (fun f => (f.1, pyReplace a b f.2))
      let urls := (files1.map (fun f => findallArtifacts a f.2)).flatten
      let writes :=
        (if f0.2 = c1 then [] else ["package.json"]) ++
          (files1.filter (fun f => pyReplace a b f.2 ≠ f.2)).map (fun f => f.1)
      some (files2, urls, writes)

/-! ## The Artifact Mirror

Model of `_copy_artifacts_s3`.  External command outcomes are supplied
by a `StorageEnv` oracle (`os.system` exit statuses and download
success); the function returns the trace of storage-affecting events
together with the outcome. -/

/-- Errors of the pipeline (one constructor per distinct `raise` site or
propagated exception class). -/
inductive Err : Type where
  | configurationError : Err
  | missingGithubToken : Err
  | missingAwsCreds : Err
  | destinationCollision : Err
  | preflightFailure : Err
  | partialUploadFailure : Err
  | downloadFailure : Err
  | noPriorRevision : Err
  | makedirsCollision : Err
  | notADirectory : Err
  | missingOldEntry : Err
  | isADirectoryError : Err
  deriving DecidableEq

/-- Outcomes of the external commands the mirror runs: the `aws s3 ls`
exit status (an `os.system` value, so 256 times the exit code), whether
the download of artifact `i` succeeds, and the exit status of upload
command `i`. -/
structure StorageEnv : Type where
  lsResult : Nat
  dlOk : Nat → Bool
  upResult : Nat → Nat

/-- Storage-affecting events of the Artifact Mirror, in program order. -/
inductive SEv : Type where
  | listDest : String → SEv
  | download : String → String → SEv
  | writeFile : String → String → SEv
  | uploadCmd : Bool → String → String → SEv
  | deleteFile : String → SEv
  deriving DecidableEq

/-- The per-artifact loop of `_copy_artifacts_s3` (download or stub,
upload, delete), indexed from `i`. -/
def uploadLoop (dry : Bool) (env : StorageEnv) (scratch s3dir : String) :
    List String → Nat → List SEv × Except Err Unit
  | [], _ => ([], .ok ())
  | url :: rest, i =>
    let filename := urlBasename url
    let localPath := scratch ++ "/" ++ filename
    let destUrl := s3dir ++ "/" ++ filename
    if dry then
      let evs := [SEv.writeFile localPath "stub", SEv.uploadCmd true localPath destUrl]
      if env.upResult i ≠ 0 then (evs, .error .partialUploadFailure)
      else
        let rec2 := uploadLoop dry env scratch s3dir rest (i + 1)
        (evs ++ SEv.deleteFile localPath :: rec2.1, rec2.2)
    else
      if env.dlOk i then
        let evs := [SEv.download url localPath, SEv.uploadCmd false localPath destUrl]
        if env.upResult i ≠ 0 then (evs, .error .partialUploadFailure)
        else
          let rec2 := uploadLoop dry env scratch s3dir rest (i + 1)
          (evs ++ SEv.deleteFile localPath :: rec2.1, rec2.2)
      else ([SEv.download url localPath], .error .downloadFailure)

/-- Model of `_copy_artifacts_s3`.  The preflight `aws s3 ls` runs via
`_run_cmd`, which in dry-run mode does not execute the command and
returns the stubbed value 1; exit status 0 means the destination already
holds objects, and a status above 256 means the listing itself failed. -/
def copyArtifactsS3 (dry : Bool) (env : StorageEnv) (scratch s3dir : String)
    (urls : List String) : List SEv × Except Err Unit :=
  let pre : List SEv × Nat := if dry then ([], 1) else ([SEv.listDest s3dir], env.lsResult)
  if pre.2 = 0 then (pre.1, .error .destinationCollision)
  else if 256 < pre.2 then (pre.1, .error .preflightFailure)
  else
    let rest := uploadLoop dry env scratch s3dir urls 0
    (pre.1 ++ rest.1, rest.2)

/-! ## The Revision Committer

Model of the revision-numbering, copy, and diff portion of
`_create_universe_branch` (the git clone/commit/push commands around it
are external processes and are not modelled).  A revision container is a
list of directory entries, each possibly a directory with its own flat
file list. -/

/-- A directory entry of a package or revision directory. -/
structure FsEntry : Type where
  name : String
  isFile : Bool
  content : String
  deriving DecidableEq

/-- An entry of the package's revision-container directory. -/
structure RepoEntry : Type where
  name : String
  isDir : Bool
  files : List FsEntry
  deriving DecidableEq

/-- Model of `file.readlines()`: split into lines, each keeping its
trailing newline, the last possibly without one. -/
def pyReadlinesCh : List Char → List (List Char)
  | [] => []
  | c :: cs =>
    if c = '\n' then ['\n'] :: pyReadlinesCh cs
    else
      match pyReadlinesCh cs with
      | [] => [[c]]
      | g :: gs => (c :: g) :: gs

/-- String-level `readlines`. -/
def pyReadlines (s : String) : List String := (pyReadlinesCh s.data).map List.asString

/-- Model of `''.join(difflib.unified_diff(olds, news, fromfile, tofile))`
at the level the pipeline relies on: the output is empty exactly when
the two line sequences are equal, and otherwise begins with the
`---`/`+++` file headers followed by hunk content; difflib's contraction
of unchanged context lines is abstracted into a single full-file hunk. -/
def unifiedDiff (fromfile tofile : String) (olds news : List String) : String :=
  if olds = news then ""
  else
    "--- " ++ fromfile ++ "\n+++ " ++ tofile ++ "\n@@ -1," ++
      (natChars olds.length).asString ++ " +1," ++ (natChars news.length).asString ++
      " @@\n" ++ String.join (olds.map (fun l => "-" ++ l)) ++
      String.join (news.map (fun l => "+" ++ l))

/-- The copy-and-classify loop of `_create_universe_branch`: walk the
package directory, skip non-files, copy files into the new revision, and
classify each filename against the shrinking `removed` list.  Returns
`(remaining removed, added, filediffs, copied)`.  The error cases model
the Python exceptions: `isADirectoryError` for `open` on a directory. -/
def diffLoop (lastnum : Int) (oldEntries : List FsEntry) :
    List FsEntry → List String →
    Except Err (List String × List String × List (String × String) × List (String × String))
  | [], removed => .ok (removed, [], [], [])
  | e :: rest, removed =>
    if e.isFile then
      if e.name ∈ removed then
        match oldEntries.find? (fun o => o.name = e.name) with
        | none => .error .missingOldEntry
        | some o =>
          if o.isFile then
            let d := unifiedDiff (intStr lastnum ++ "/" ++ e.name)
              (intStr (lastnum + 1) ++ "/" ++ e.name)
              (pyReadlines o.content) (pyReadlines e.content)
            match diffLoop lastnum oldEntries rest (removed.erase e.name) with
            | .error er => .error er
            | .ok (rem, add, diffs, copied) =>
              .ok (rem, add, (e.name, d) :: diffs, (e.name, e.content) :: copied)
          else .error .isADirectoryError
      else
        match diffLoop lastnum oldEntries rest removed with
        | .error er => .error er
        | .ok (rem, add, diffs, copied) =>
          .ok (rem, e.name :: add, diffs, (e.name, e.content) :: copied)
    else diffLoop lastnum oldEntries rest removed

/-- One step of the prior-release scan: a directory whose name parses as
an integer bumps the running maximum; everything else is skipped. -/
def revStep (last : Int) (e : RepoEntry) : Int :=
  if e.isDir then
    match pyInt e.name with
    | some n => if last < n then n else last
    | none => last
  else last

/-- Model of the prior-release scan: fold `os.listdir` entries, keeping
the largest integer-named directory, starting from -1. -/
def findLastNum (entries : List RepoEntry) : Int := entries.foldl revStep (-1)

/-- Insertion into a sorted string list (Python `list.sort()` order). -/
def insertStr (x : String) : List String → List String
  | [] => [x]
  | y :: ys => if strLe x y then x :: y :: ys else y :: insertStr x ys

/-- Insertion sort on strings. -/
def sortStrings : List String → List String
  | [] => []
  | x :: xs => insertStr x (sortStrings xs)

/-- Association-list lookup for the filediffs dict. -/
def lookupS (k : String) : List (String × String) → Option String
  | [] => none
  | p :: t => if p.1 = k then some p.2 else lookupS k t

/-- The commit-message `resultlines` composition: optional description,
counts and listings of added/removed files, the changed-file count, and
the per-file diffs sorted by filename inside a fenced block. -/
def renderResultLines (commitDesc : String) (lastnum : Int)
    (added removed : List String) (filediffs : List (String × String)) : List String :=
  let base := [
    "Changes since revision " ++ intStr lastnum ++ ":\n",
    (natChars added.length).asString ++ " files added: [" ++
      String.intercalate ", " added ++ "]\n",
    (natChars removed.length).asString ++ " files removed: [" ++
      String.intercalate ", " removed ++ "]\n",
    (natChars filediffs.length).asString ++ " files changed:\n\n"]
  let base := if commitDesc ≠ "" then ("Description:\n" ++ commitDesc ++ "\n\n") :: base
    else base
  let names := sortStrings (filediffs.map (fun p => p.1))
  base ++ ["```\n"] ++ names.map (fun n => (lookupS n filediffs).getD "") ++ ["```\n"]

/-- Events of the Revision Committer visible in the repository tree. -/
inductive BEvent : Type where
  | mkdirRev : Int → BEvent
  deriving DecidableEq

/-- Result of a successful revision commit (before the git push). -/
structure BranchResult : Type where
  lastnum : Int
  added : List String
  removed : List String
  filediffs : List (String × String)
  copied : List (String × String)
  commitLines : List String
  deriving DecidableEq

/-- Model of the revision-selection and diff portion of
`_create_universe_branch`: find the prior release number, `os.makedirs`
the next revision directory (this happens before the prior revision is
listed), then list the prior revision and run the copy/classify loop.
The `FileNotFoundError` raised by `os.listdir` on the absent directory
`-1` when no integer-named revision exists is `noPriorRevision`. -/
def createUniverseBranchCore (commitDesc : String) (repoEntries : List RepoEntry)
    (pkgEntries : List FsEntry) : List BEvent × Except Err BranchResult :=
  let lastnum := findLastNum repoEntries
  if repoEntries.any (fun e => e.name = intStr (lastnum + 1)) then
    ([], .error .makedirsCollision)
  else
    let evs := [BEvent.mkdirRev (lastnum + 1)]
    match repoEntries.find? (fun e => e.name = intStr lastnum) with
    | none => (evs, .error .noPriorRevision)
    | some le =>
      if le.isDir then
        match diffLoop lastnum le.files pkgEntries (le.files.map (fun f => f.name)) with
        | .error er => (evs, .error er)
        | .ok (rem, add, diffs, copied) =>
          (evs, .ok ⟨lastnum, add, rem, diffs, copied,
            renderResultLines commitDesc lastnum add rem diffs⟩)
      else (evs, .error .notADirectory)

/-! ## Release Request construction and the exit code

Models of `UniverseReleaseBuilder.__init__` and the tail of `main`. -/

/-- The literal `/stub-universe-` of the name-extraction pattern. -/
def markerChars : List Char := "/stub-universe-".data

/-- Does `re.match('.+/stub-universe-(.+).zip$', url)` succeed with the
marker starting at index `i`?  If so, return the capture group.  The
characters consumed by `.+` and `.` may not be newlines, the group needs
at least one character, and the final `.zip` (with `.` a wildcard) must
sit at the very end. -/
def nameMatchAt (s : List Char) (i : Nat) : Option (List Char) :=
  if 1 ≤ i && (s.take i).all (fun c => c ≠ '\n') && markerChars.isPrefixOf (s.drop i) then
    let t := s.drop (i + markerChars.length)
    if 5 ≤ t.length && (t.take (t.length - 4)).all (fun c => c ≠ '\n') then
      match t.drop (t.length - 4) with
      | [c, 'z', 'i', 'p'] => if c ≠ '\n' then some (t.take (t.length - 4)) else none
      | _ => none
    else none
  else none

/-- Model of the package-name extraction
`re.match('.+/stub-universe-(.+).zip$', stub_universe_url)`: the greedy
leading `.+` selects the largest viable marker position; `$` also
accepts one trailing newline. -/
def extractPkgName (url : String) : Option String :=
  let s0 := url.data
  let s := if s0.getLast? = some '\n' then s0.dropLast else s0
  ((List.range (s.length + 1)).reverse.findSome? (fun i => nameMatchAt s i)).map
    List.asString

/-- Environment-derived configuration read by `__init__`. -/
structure EnvCfg : Type where
  dryRun : String
  githubToken : Option String
  hasAwsKeyId : Bool
  hasAwsSecret : Bool
  minDcosReleaseVersion : String
  httpReleaseServer : String
  s3ReleaseBucket : String
  releaseDirPath : String

/-- The immutable Release Request state built by `__init__`. -/
structure Builder : Type where
  dryRun : String
  pkgName : String
  pkgVersion : String
  commitDesc : String
  stubUniverseUrl : String
  minDcosReleaseVersion : String
  prTitle : String
  releaseArtifactHttpDir : String
  releaseArtifactS3Dir : String
  deriving DecidableEq

/-- Model of `UniverseReleaseBuilder.__init__`: the URL pattern check
comes first (its failure is the `ConfigurationError`), then the
credential presence checks; only then is the Release Request state
produced. -/
def builderInit (env : EnvCfg) (packageVersion stubUniverseUrl commitDesc : String) :
    Except Err Builder :=
  match extractPkgName stubUniverseUrl with
  | none => .error .configurationError
  | some name =>
    let rdp := if env.releaseDirPath = "" then name ++ "/assets" else env.releaseDirPath
    match env.githubToken with
    | none => .error .missingGithubToken
    | some _ =>
      if env.hasAwsKeyId && env.hasAwsSecret then
        .ok {
          dryRun := env.dryRun
          pkgName := name
          pkgVersion := packageVersion
          commitDesc := commitDesc
          stubUniverseUrl := stubUniverseUrl
          minDcosReleaseVersion := env.minDcosReleaseVersion
          prTitle := "Release " ++ name ++ " " ++ packageVersion ++ " (automated commit)\n\n"
          releaseArtifactHttpDir :=
            env.httpReleaseServer ++ "/" ++ rdp ++ "/" ++ packageVersion
          releaseArtifactS3Dir :=
            "s3://" ++ env.s3ReleaseBucket ++ "/" ++ rdp ++ "/" ++ packageVersion }
      else .error .missingAwsCreds

/-- What `release_zip` hands back to `main`: `None` in dry-run mode, or
the HTTP response (status and body URL) of the pull-request creation. -/
inductive PRResult : Type where
  | dryRun : PRResult
  | response : Nat → String → PRResult
  deriving DecidableEq

/-- Model of the exit code of `main` (plus the interpreter's behavior on
an uncaught exception, which exits with status 1): usage error is 1, a
pipeline exception is 1, dry-run is 0, a non-2xx pull-request response
is -1 with the response body reported and an instruction to create the
request manually, and a 2xx response is 0. -/
def mainExitCode (argc : Nat) (run : Except Err PRResult) : Int :=
  if argc < 3 then 1
  else
    match run with
    | .error _ => 1
    | .ok .dryRun => 0
    | .ok (.response status _) => if status < 200 || 300 ≤ status then -1 else 0

/-! ## Helper notions used by the specifications below -/

/-- Boolean membership in a string list. -/
def memB (n : String) : List String → Bool
  | [] => false
  | x :: xs => x = n || memB n xs

/-- Names of the regular files of a directory listing, in order. -/
def fileNames (l : List FsEntry) : List String :=
  (l.filter (fun e => e.isFile)).map (fun e => e.name)

/-- Are the keys of an object spine in sorted order? -/
def sortedKeys : J → Bool
  | .ocons k _ t =>
    (match t with
     | .ocons k2 _ _ => strLe k k2
     | _ => true) && sortedKeys t
  | _ => true

/-- The remaining input does not begin with a decimal digit (so a number
literal just before it is read back in full). -/
def headNotDigit : List Char → Bool
  | [] => true
  | c :: _ => !c.isDigit

/-- Is the list all whitespace? -/
def allWs (l : List Char) : Bool := l.all isWsChar

/-- The unified diff recorded for a filename present in both the prior
revision (entry `o`) and the new package directory (entry `e`). -/
def mkDiff (lastnum : Int) (o e : FsEntry) : String :=
  unifiedDiff (intStr lastnum ++ "/" ++ e.name) (intStr (lastnum + 1) ++ "/" ++ e.name)
    (pyReadlines o.content) (pyReadlines e.content)

/-- Decidable equality for `Except` results (not provided by the core
library of this toolchain). -/
def exceptEqDec {e a : Type} [DecidableEq e] [DecidableEq a] :
    DecidableEq (Except e a) := fun x y =>
  match x, y with
  | .ok u, .ok w =>
    if h : u = w then isTrue (by rw [h]) else isFalse (by intro hh; cases hh; exact h rfl)
  | .error u, .error w =>
    if h : u = w then isTrue (by rw [h]) else isFalse (by intro hh; cases hh; exact h rfl)
  | .ok _, .error _ => isFalse (by intro hh; cases hh)
  | .error _, .ok _ => isFalse (by intro hh; cases hh)

instance : DecidableEq (Except Err Unit) := exceptEqDec

instance : DecidableEq (Except Err BranchResult) := exceptEqDec

instance : DecidableEq
    (Except Err (List String × List String × List (String × String) ×
      List (String × String))) := exceptEqDec

end ReleaseBuilder

namespace ReleaseBuilder

/-! ## Lemmas about dict operations -/

theorem lookupJ_setItem_self (k : String) (v : J) (l : J) :
    lookupJ k (pySetItem k v l) = some v := by
  induction l
  case ocons k3 v3 t ihv iht =>
    by_cases h3 : k3 = k
    · simp [pySetItem, lookupJ, h3]
    · simp [pySetItem, lookupJ, h3, iht]
  all_goals simp [pySetItem, lookupJ]

theorem lookupJ_setItem_other (k k2 : String) (v : J) (l : J) (h : k2 ≠ k) :
    lookupJ k (pySetItem k2 v l) = lookupJ k l := by
  induction l
  case ocons k3 v3 t ihv iht =>
    by_cases h3 : k3 = k2
    · subst h3
      simp [pySetItem, lookupJ, h, Ne.symm h]
    · by_cases h4 : k3 = k
      · subst h4
        simp [pySetItem, lookupJ, h3, Ne.symm h, iht]
      · simp [pySetItem, lookupJ, h3, h4, iht]
  all_goals simp [pySetItem, lookupJ, h]

theorem setItem_id (k : String) (v : J) (l : J) (h : lookupJ k l = some v) :
    pySetItem k v l = l := by
  induction l
  case ocons k3 v3 t ihv iht =>
    by_cases h3 : k3 = k
    · subst h3
      have hv : v3 = v := by simpa [lookupJ] using h
      subst hv
      simp [pySetItem]
    · have ht : lookupJ k t = some v := by simpa [lookupJ, h3] using h
      simp [pySetItem, h3, iht ht]
  all_goals simp [lookupJ] at h

/-! ## C9: the minimum-platform-version sentinel -/

/-- C9: with the sentinel value `'0'` the rewrite sets only `version` and
`packagingVersion`; every other key of the metadata document, in
particular a pre-existing `minDcosReleaseVersion`, keeps the binding it
had before the rewrite. -/
theorem c9_min_platform_sentinel (pv : String) (l : J) :
    (∀ k, k ≠ "version" → k ≠ "packagingVersion" →
      lookupJ k (updateFields pv "0" l) = lookupJ k l) ∧
    lookupJ "minDcosReleaseVersion" (updateFields pv "0" l) =
      lookupJ "minDcosReleaseVersion" l := by
  have main : ∀ k, k ≠ "version" → k ≠ "packagingVersion" →
      lookupJ k (updateFields pv "0" l) = lookupJ k l := by
    intro k h1 h2
    have hred : updateFields pv "0" l =
        pySetItem "packagingVersion" (J.jstr "3.0") (pySetItem "version" (J.jstr pv) l) := rfl
    rw [hred, lookupJ_setItem_other _ _ _ _ (Ne.symm h2),
      lookupJ_setItem_other _ _ _ _ (Ne.symm h1)]
  exact ⟨main, main "minDcosReleaseVersion" (by decide) (by decide)⟩

/-- Witness for C9 at a concrete metadata document. -/
theorem c9_min_platform_sentinel_witness :
    lookupJ "minDcosReleaseVersion"
      (updateFields "9.9.9" "0" (J.ocons "minDcosReleaseVersion" (J.jstr "1.9") J.onil)) =
      some (J.jstr "1.9") := by
  have h := (c9_min_platform_sentinel "9.9.9"
    (J.ocons "minDcosReleaseVersion" (J.jstr "1.9") J.onil)).1
    "minDcosReleaseVersion" (by decide) (by decide)
  rw [h]; decide

/-! ## C5: process exit codes -/

/-- C5 (amended): exit code 0 on a 2xx proposal response and on dry-run;
exit code -1 (not 0) on a non-2xx proposal-creation response; exit code 1
on a pipeline failure prior to the proposal stage, and 1 on missing
arguments. -/
theorem c5_exit_codes (argc : Nat) (h : 3 ≤ argc) :
    (∀ st body, 200 ≤ st → st < 300 → mainExitCode argc (.ok (.response st body)) = 0) ∧
    mainExitCode argc (.ok .dryRun) = 0 ∧
    (∀ st body, st < 200 ∨ 300 ≤ st → mainExitCode argc (.ok (.response st body)) = -1) ∧
    (∀ e, mainExitCode argc (.error e) = 1) ∧
    mainExitCode 2 (.ok .dryRun) = 1 := by
  have hlt : ¬ argc < 3 := by omega
  refine ⟨?_, ?_, ?_, ?_, ?_⟩
  · intro st body h1 h2
    have : ¬ (st < 200 ∨ 300 ≤ st) := by omega
    simp [mainExitCode, hlt, this]
  · simp [mainExitCode, hlt]
  · intro st body h1
    simp [mainExitCode, hlt]
    omega
  · intro e; simp [mainExitCode, hlt]
  · simp [mainExitCode]

/-- Witness for C5 at concrete statuses. -/
theorem c5_exit_codes_witness :
    mainExitCode 3 (.ok (.response 201 "https://github.example/pr/1")) = 0 ∧
    mainExitCode 3 (.ok (.response 404 "body")) = -1 :=
  ⟨(c5_exit_codes 3 (by decide)).1 201 "https://github.example/pr/1" (by decide) (by decide),
   (c5_exit_codes 3 (by decide)).2.2.1 404 "body" (Or.inr (by decide))⟩

/-- Counterexample to C5 as stated: a non-2xx pull-request creation
response makes `main` return -1, not 0. -/
theorem c5_counterexample :
    mainExitCode 3 (.ok (.response 404 "body")) = -1 ∧ (-1 : Int) ≠ 0 := by
  constructor
  · decide
  · decide

/-! ## C1: the Artifact Mirror preflight -/

/-- C1: in the real (non-dry-run) mirror, the destination listing is the
first storage event; exit status 0 of the listing (destination occupied)
fails with the collision error and the trace holds no upload command at
all; a listing status above 256 fails with the distinct preflight error;
and any upload command in the trace implies the listing reported the
destination empty (status neither 0 nor above 256). -/
theorem c1_mirror_preflight (env : StorageEnv) (scratch s3dir : String) (urls : List String) :
    ((copyArtifactsS3 false env scratch s3dir urls).1.head? = some (SEv.listDest s3dir)) ∧
    (env.lsResult = 0 →
      copyArtifactsS3 false env scratch s3dir urls =
        ([SEv.listDest s3dir], .error .destinationCollision)) ∧
    (256 < env.lsResult →
      copyArtifactsS3 false env scratch s3dir urls =
        ([SEv.listDest s3dir], .error .preflightFailure)) ∧
    Err.preflightFailure ≠ Err.destinationCollision ∧
    (∀ d lp du, SEv.uploadCmd d lp du ∈ (copyArtifactsS3 false env scratch s3dir urls).1 →
      env.lsResult ≠ 0 ∧ env.lsResult ≤ 256) := by
  by_cases h0 : env.lsResult = 0
  · refine ⟨?_, ?_, ?_, by decide, ?_⟩
    · simp [copyArtifactsS3, h0]
    · intro _; simp [copyArtifactsS3, h0]
    · intro hc; omega
    · intro d lp du hmem
      simp [copyArtifactsS3, h0] at hmem
  · by_cases h1 : 256 < env.lsResult
    · refine ⟨?_, ?_, ?_, by decide, ?_⟩
      · simp [copyArtifactsS3, h0, h1]
      · intro hc; omega
      · intro _; simp [copyArtifactsS3, h0, h1]
      · intro d lp du hmem
        simp [copyArtifactsS3, h0, h1] at hmem
    · refine ⟨?_, ?_, ?_, by decide, ?_⟩
      · simp [copyArtifactsS3, h0, h1]
      · intro hc; omega
      · intro hc; omega
      · intro d lp du _
        exact ⟨h0, by omega⟩

/-- Witness for C1: with listing status 0 the mirror collides with an
empty upload trace, and with status 512 it reports the preflight error. -/
theorem c1_mirror_preflight_witness :
    copyArtifactsS3 false ⟨0, fun _ => true, fun _ => 0⟩ "scratch" "s3://b/x/1"
      ["https://h/p/a.json"] = ([SEv.listDest "s3://b/x/1"], .error .destinationCollision) ∧
    copyArtifactsS3 false ⟨512, fun _ => true, fun _ => 0⟩ "scratch" "s3://b/x/1"
      ["https://h/p/a.json"] = ([SEv.listDest "s3://b/x/1"], .error .preflightFailure) :=
  ⟨((c1_mirror_preflight ⟨0, fun _ => true, fun _ => 0⟩ "scratch" "s3://b/x/1"
      ["https://h/p/a.json"]).2.1) rfl,
   ((c1_mirror_preflight ⟨512, fun _ => true, fun _ => 0⟩ "scratch" "s3://b/x/1"
      ["https://h/p/a.json"]).2.2.1) (by decide)⟩

/-! ## C3: the dry-run variant of the Artifact Mirror -/

theorem uploadLoop_dry_events (env : StorageEnv) (scratch s3dir : String) :
    ∀ (urls : List String) (i : Nat) (ev : SEv),
      ev ∈ (uploadLoop true env scratch s3dir urls i).1 →
      (∃ lp, ev = SEv.writeFile lp "stub") ∨ (∃ lp du, ev = SEv.uploadCmd true lp du) ∨
        (∃ lp, ev = SEv.deleteFile lp) := by
  intro urls
  induction urls with
  | nil => intro i ev h; simp [uploadLoop] at h
  | cons url rest ih =>
    intro i ev h
    simp only [uploadLoop, if_pos] at h
    by_cases hup : env.upResult i ≠ 0
    · simp [hup] at h
      rcases h with h | h
      · exact Or.inl ⟨_, h⟩
      · exact Or.inr (Or.inl ⟨_, _, h⟩)
    · simp [hup] at h
      rcases h with h | h | h | h
      · exact Or.inl ⟨_, h⟩
      · exact Or.inr (Or.inl ⟨_, _, h⟩)
      · exact Or.inr (Or.inr ⟨_, h⟩)
      · exact ih (i + 1) ev h

theorem uploadLoop_dry_env (env : StorageEnv) (scratch s3dir : String) (n : Nat)
    (dl : Nat → Bool) :
    ∀ (urls : List String) (i : Nat),
      uploadLoop true ⟨n, dl, env.upResult⟩ scratch s3dir urls i =
        uploadLoop true env scratch s3dir urls i := by
  intro urls
  induction urls with
  | nil => intro i; simp [uploadLoop]
  | cons url rest ih => intro i; simp [uploadLoop, ih (i + 1)]

theorem uploadLoop_result (dry : Bool) (env : StorageEnv) (scratch s3dir : String) :
    ∀ (urls : List String) (i : Nat),
      (uploadLoop dry env scratch s3dir urls i).2 ≠ .error .destinationCollision ∧
      (uploadLoop dry env scratch s3dir urls i).2 ≠ .error .preflightFailure := by
  intro urls
  induction urls with
  | nil => intro i; simp [uploadLoop]
  | cons url rest ih =>
    intro i
    by_cases hd : dry = true
    · subst hd
      by_cases hup : env.upResult i ≠ 0 <;> simp [uploadLoop, hup, ih (i + 1)]
    · simp only [Bool.not_eq_true] at hd
      subst hd
      by_cases hdl : env.dlOk i = true
      · by_cases hup : env.upResult i ≠ 0 <;> simp [uploadLoop, hdl, hup, ih (i + 1)]
      · simp [uploadLoop, hdl]

/-- C3 (amended): the dry-run mirror keeps the shape of the real control
flow but does not execute the destination listing (the `_run_cmd` stub
returns exit value 1, so the collision and preflight branches can never
fire and the result is independent of the listing and download oracles);
each download is replaced by writing a 4-byte placeholder file with
content `stub`, and every storage command issued is the upload tool's
simulate mode. -/
theorem c3_dry_run (env : StorageEnv) (scratch s3dir : String) (urls : List String) :
    (∀ ev ∈ (copyArtifactsS3 true env scratch s3dir urls).1,
      (∃ lp, ev = SEv.writeFile lp "stub") ∨ (∃ lp du, ev = SEv.uploadCmd true lp du) ∨
        (∃ lp, ev = SEv.deleteFile lp)) ∧
    (∀ d, SEv.listDest d ∉ (copyArtifactsS3 true env scratch s3dir urls).1) ∧
    (∀ u lp, SEv.download u lp ∉ (copyArtifactsS3 true env scratch s3dir urls).1) ∧
    "stub".length = 4 ∧
    (∀ (n : Nat) (dl : Nat → Bool),
      copyArtifactsS3 true ⟨n, dl, env.upResult⟩ scratch s3dir urls =
        copyArtifactsS3 true env scratch s3dir urls) ∧
    (copyArtifactsS3 true env scratch s3dir urls).2 ≠ .error .destinationCollision ∧
    (copyArtifactsS3 true env scratch s3dir urls).2 ≠ .error .preflightFailure := by
  have htr : (copyArtifactsS3 true env scratch s3dir urls).1 =
      (uploadLoop true env scratch s3dir urls 0).1 := by
    simp [copyArtifactsS3]
  have hres : (copyArtifactsS3 true env scratch s3dir urls).2 =
      (uploadLoop true env scratch s3dir urls 0).2 := by
    simp [copyArtifactsS3]
  refine ⟨?_, ?_, ?_, by decide, ?_, ?_, ?_⟩
  · intro ev hev
    rw [htr] at hev
    exact uploadLoop_dry_events env scratch s3dir urls 0 ev hev
  · intro d hmem
    rw [htr] at hmem
    rcases uploadLoop_dry_events env scratch s3dir urls 0 _ hmem with ⟨_, h⟩ | ⟨_, _, h⟩ | ⟨_, h⟩ <;>
      exact SEv.noConfusion h
  · intro u lp hmem
    rw [htr] at hmem
    rcases uploadLoop_dry_events env scratch s3dir urls 0 _ hmem with ⟨_, h⟩ | ⟨_, _, h⟩ | ⟨_, h⟩ <;>
      exact SEv.noConfusion h
  · intro n dl
    simp [copyArtifactsS3, uploadLoop_dry_env env scratch s3dir n dl urls 0]
  · rw [hres]; exact (uploadLoop_result true env scratch s3dir urls 0).1
  · rw [hres]; exact (uploadLoop_result true env scratch s3dir urls 0).2

/-- Witness for C3 at a concrete environment and URL list. -/
theorem c3_dry_run_witness :
    SEv.listDest "s3://b/x/1" ∉
      (copyArtifactsS3 true ⟨0, fun _ => true, fun _ => 0⟩ "scratch" "s3://b/x/1"
        ["https://h/p/a.json"]).1 ∧
    (copyArtifactsS3 true ⟨0, fun _ => true, fun _ => 0⟩ "scratch" "s3://b/x/1"
        ["https://h/p/a.json"]).2 ≠ .error .destinationCollision :=
  ⟨(c3_dry_run ⟨0, fun _ => true, fun _ => 0⟩ "scratch" "s3://b/x/1"
      ["https://h/p/a.json"]).2.1 "s3://b/x/1",
   (c3_dry_run ⟨0, fun _ => true, fun _ => 0⟩ "scratch" "s3://b/x/1"
      ["https://h/p/a.json"]).2.2.2.2.2.1⟩

/-- Counterexample to C3 as stated: with the destination occupied
(listing status 0) the real variant collides but the dry-run variant
proceeds, because the dry-run never performs the destination listing; the
trace it produces contains no listing event and its local placeholder
file has the 4-byte content `stub`, not zero bytes. -/
theorem c3_counterexample :
    (copyArtifactsS3 false ⟨0, fun _ => true, fun _ => 0⟩ "scratch" "s3://b/x/1"
      ["https://h/p/a.json"]).2 = .error .destinationCollision ∧
    (copyArtifactsS3 true ⟨0, fun _ => true, fun _ => 0⟩ "scratch" "s3://b/x/1"
      ["https://h/p/a.json"]).2 = .ok () ∧
    (copyArtifactsS3 true ⟨0, fun _ => true, fun _ => 0⟩ "scratch" "s3://b/x/1"
      ["https://h/p/a.json"]).1 =
      [SEv.writeFile "scratch/a.json" "stub",
       SEv.uploadCmd true "scratch/a.json" "s3://b/x/1/a.json",
       SEv.deleteFile "scratch/a.json"] ∧
    "stub".length ≠ 0 := by
  refine ⟨by decide, by decide, by decide, by decide⟩

/-! ## C4: artifact URL extraction -/

/-- C4 (amended): the Artifact URL Set lists the regex captures in
discovery order with one entry per occurrence — a URL referenced in two
files appears twice — and on the specification's example input the URL
`https://host/path/v1/foo.json` is captured exactly once while the
rewritten file content references `https://new/dest/v1/foo.json`. -/
theorem c4_url_extraction :
    updatePackage ⟨"1.2.3", "0", "https://host/path/stub-universe-foo.zip", "https://new/dest"⟩
      [("package.json", "\x7b\x7d"), ("config.json", "\"https://host/path/v1/foo.json\"")] =
      some ([("package.json",
          "\x7b\n  \"packagingVersion\": \"3.0\",\n  \"version\": \"1.2.3\"\n\x7d\n"),
        ("config.json", "\"https://new/dest/v1/foo.json\"")],
        ["https://host/path/v1/foo.json"], ["package.json", "config.json"]) ∧
    (updatePackage ⟨"1.2.3", "0", "https://host/path/stub-universe-foo.zip", "https://new/dest"⟩
      [("package.json", "\x7b\x7d"), ("a.json", "\"https://host/path/v1/foo.json\""),
       ("b.json", "\"https://host/path/v1/foo.json\"")]).map (fun r => r.2.1) =
      some ["https://host/path/v1/foo.json", "https://host/path/v1/foo.json"] := by
  refine ⟨by decide, by decide⟩

/-- Counterexample to C4 as stated: a URL referenced by two files is
recorded twice, so the Artifact URL Set is not duplicate-free. -/
theorem c4_counterexample :
    (updatePackage ⟨"1.2.3", "0", "https://host/path/stub-universe-foo.zip", "https://new/dest"⟩
      [("package.json", "\x7b\x7d"), ("a.json", "\"https://host/path/v1/foo.json\""),
       ("b.json", "\"https://host/path/v1/foo.json\"")]).map (fun r => r.2.1) =
      some ["https://host/path/v1/foo.json", "https://host/path/v1/foo.json"] ∧
    ¬ List.Nodup ["https://host/path/v1/foo.json", "https://host/path/v1/foo.json"] := by
  refine ⟨by decide, by decide⟩

/-! ## C6: package-name extraction from the archive URL -/

/-- C6: Release Request construction extracts the package name as the
regex capture for matching archive URLs; for non-matching URLs it fails
with the configuration error whatever the rest of the environment holds,
so no Release Request state is created. -/
theorem c6_name_extraction (env : EnvCfg) (pv url cd : String) :
    (extractPkgName url = none → builderInit env pv url cd = .error .configurationError) ∧
    (∀ n b, extractPkgName url = some n → builderInit env pv url cd = .ok b →
      b.pkgName = n) ∧
    extractPkgName "https://example.com/path/to/stub-universe-kafka.zip" = some "kafka" ∧
    extractPkgName "https://example.com/path/to/stub-universe.zip" = none ∧
    extractPkgName "https://example.com/download/foo.zip" = none := by
  refine ⟨?_, ?_, by decide, by decide, by decide⟩
  · intro h
    simp [builderInit, h]
  · intro n b hn hb
    rw [builderInit, hn] at hb
    cases hgt : env.githubToken with
    | none =>
      rw [hgt] at hb
      exact Except.noConfusion hb
    | some tok =>
      rw [hgt] at hb
      dsimp only at hb
      split at hb
      · injection hb with hb2
        rw [← hb2]
      · exact Except.noConfusion hb

/-- Witness for C6: a non-matching URL fails construction, and a
matching URL yields the captured name. -/
theorem c6_name_extraction_witness :
    builderInit ⟨"", some "tok", true, true, "1.7", "https://dl.example.com", "bucket", ""⟩
      "1.0" "https://example.com/download/foo.zip" "" = .error .configurationError ∧
    (∀ b, builderInit ⟨"", some "tok", true, true, "1.7", "https://dl.example.com", "bucket", ""⟩
      "1.0" "https://example.com/path/to/stub-universe-kafka.zip" "" = .ok b →
      b.pkgName = "kafka") :=
  ⟨(c6_name_extraction ⟨"", some "tok", true, true, "1.7", "https://dl.example.com", "bucket", ""⟩
      "1.0" "https://example.com/download/foo.zip" "").1 (by decide),
   fun b hb =>
    (c6_name_extraction ⟨"", some "tok", true, true, "1.7", "https://dl.example.com", "bucket", ""⟩
      "1.0" "https://example.com/path/to/stub-universe-kafka.zip" "").2.1 "kafka" b
      (by decide) hb⟩

/-! ## C2: revision numbering -/

theorem foldl_revStep_ge : ∀ (entries : List RepoEntry) (init : Int),
    init ≤ List.foldl revStep init entries := by
  intro entries
  induction entries with
  | nil => intro init; simp
  | cons e es ih =>
    intro init
    have h1 : init ≤ revStep init e := by
      unfold revStep
      by_cases hd : e.isDir = true
      · simp only [hd, if_true]
        cases pyInt e.name with
        | none => simp
        | some n =>
          by_cases hlt : init < n <;> (simp [hlt]; try omega)
      · simp [hd]
    calc init ≤ revStep init e := h1
      _ ≤ List.foldl revStep (revStep init e) es := ih (revStep init e)
      _ = List.foldl revStep init (e :: es) := by simp [List.foldl_cons]

theorem foldl_revStep_ub : ∀ (entries : List RepoEntry) (init : Int) (e : RepoEntry)
    (n : Int), e ∈ entries → e.isDir = true → pyInt e.name = some n →
    n ≤ List.foldl revStep init entries := by
  intro entries
  induction entries with
  | nil => intro init e n h; simp at h
  | cons e2 es ih =>
    intro init e n hmem hd hp
    rcases List.mem_cons.mp hmem with heq | htail
    · subst heq
      have h1 : n ≤ revStep init e := by
        unfold revStep
        simp only [hd, if_true, hp]
        by_cases hlt : init < n <;> (simp [hlt]; try omega)
      calc n ≤ revStep init e := h1
        _ ≤ List.foldl revStep (revStep init e) es := foldl_revStep_ge es _
        _ = List.foldl revStep init (e :: es) := by simp [List.foldl_cons]
    · simpa [List.foldl_cons] using ih (revStep init e2) e n htail hd hp

theorem foldl_revStep_attained : ∀ (entries : List RepoEntry) (init : Int),
    List.foldl revStep init entries = init ∨
      ∃ e ∈ entries, e.isDir = true ∧
        pyInt e.name = some (List.foldl revStep init entries) := by
  intro entries
  induction entries with
  | nil => intro init; exact Or.inl rfl
  | cons e es ih =>
    intro init
    rw [List.foldl_cons]
    by_cases hstep : revStep init e = init
    · rw [hstep]
      rcases ih init with h | ⟨e2, hm, hd, hp⟩
      · exact Or.inl h
      · exact Or.inr ⟨e2, List.mem_cons_of_mem _ hm, hd, hp⟩
    · have hpick : e.isDir = true ∧ pyInt e.name = some (revStep init e) := by
        by_cases hd : e.isDir = true
        · cases hp : pyInt e.name with
          | none => exact absurd (by simp [revStep, hd, hp]) hstep
          | some n =>
            by_cases hlt : init < n
            · have hrev : revStep init e = n := by simp [revStep, hd, hp, hlt]
              exact ⟨hd, by rw [hrev]⟩
            · exact absurd (by simp [revStep, hd, hp, hlt]) hstep
        · exact absurd (by simp [revStep, hd]) hstep
      rcases ih (revStep init e) with h | ⟨e2, hm, hd, hp⟩
      · rw [h]
        exact Or.inr ⟨e, List.mem_cons_self _ _, hpick.1, hpick.2⟩
      · exact Or.inr ⟨e2, List.mem_cons_of_mem _ hm, hd, hp⟩

theorem foldl_revStep_skip : ∀ (entries : List RepoEntry) (init : Int),
    (∀ e ∈ entries, e.isDir = false ∨ pyInt e.name = none) →
    List.foldl revStep init entries = init := by
  intro entries
  induction entries with
  | nil => intro init _; rfl
  | cons e es ih =>
    intro init h
    have hstep : revStep init e = init := by
      rcases h e (List.mem_cons_self _ _) with hd | hp
      · unfold revStep; rw [hd]; simp
      · unfold revStep
        by_cases hd : e.isDir = true <;> simp [hd, hp]
    rw [List.foldl_cons, hstep]
    exact ih init (fun e2 hm => h e2 (List.mem_cons_of_mem _ hm))

/-- C2 (amended): the next revision number is one more than the largest
integer-named subdirectory of the revision container, non-integer names
and non-directories being ignored (`\x7b0,1,2\x7d` yields 3 and
`\x7b0,5,3\x7d` yields 6); when no integer-named subdirectory exists the
committer fails with the no-prior-revision error, but only after having
created the new revision directory numbered 0. -/
theorem c2_revision_numbering :
    (∀ (entries : List RepoEntry) (e : RepoEntry) (n : Int), e ∈ entries →
      e.isDir = true → pyInt e.name = some n → n ≤ findLastNum entries) ∧
    (∀ entries : List RepoEntry, findLastNum entries = -1 ∨
      ∃ e ∈ entries, e.isDir = true ∧ pyInt e.name = some (findLastNum entries)) ∧
    (∀ (e : RepoEntry) (entries : List RepoEntry),
      e.isDir = false ∨ pyInt e.name = none →
      findLastNum (e :: entries) = findLastNum entries) ∧
    findLastNum [⟨"0", true, []⟩, ⟨"1", true, []⟩, ⟨"2", true, []⟩] = 2 ∧
    (createUniverseBranchCore "" [⟨"0", true, []⟩, ⟨"1", true, []⟩, ⟨"2", true, []⟩] []).1 =
      [BEvent.mkdirRev 3] ∧
    findLastNum [⟨"0", true, []⟩, ⟨"5", true, []⟩, ⟨"3", true, []⟩] = 5 ∧
    (createUniverseBranchCore "" [⟨"0", true, []⟩, ⟨"5", true, []⟩, ⟨"3", true, []⟩] []).1 =
      [BEvent.mkdirRev 6] ∧
    (∀ (cd : String) (entries : List RepoEntry) (pkg : List FsEntry),
      (∀ e ∈ entries, e.isDir = false ∨ pyInt e.name = none) →
      (∀ e ∈ entries, e.name ≠ "0") →
      (∀ e ∈ entries, e.name ≠ "-1") →
      createUniverseBranchCore cd entries pkg =
        ([BEvent.mkdirRev 0], .error .noPriorRevision)) := by
  refine ⟨?_, ?_, ?_, by decide, by decide, by decide, by decide, ?_⟩
  · intro entries e n hm hd hp
    exact foldl_revStep_ub entries (-1) e n hm hd hp
  · intro entries
    exact foldl_revStep_attained entries (-1)
  · intro e entries h
    unfold findLastNum
    rw [List.foldl_cons]
    have : revStep (-1) e = -1 := by
      rcases h with hd | hp
      · unfold revStep; rw [hd]; simp
      · unfold revStep
        by_cases hd : e.isDir = true <;> simp [hd, hp]
    rw [this]
  · intro cd entries pkg hskip h0 hm1
    have hlast : findLastNum entries = -1 := foldl_revStep_skip entries (-1) hskip
    unfold createUniverseBranchCore
    rw [hlast]
    have h01 : intStr (-1 + 1) = "0" := by norm_num; decide
    have hm1s : intStr (-1) = "-1" := by decide
    dsimp only
    rw [h01, hm1s]
    have hany : entries.any (fun e => e.name = "0") = false := by
      rw [List.any_eq_false]
      intro e hm
      simp [h0 e hm]
    have hfind : entries.find? (fun e => e.name = "-1") = none := by
      rw [List.find?_eq_none]
      intro e hm
      simp [hm1 e hm]
    rw [hany, hfind]
    norm_num

/-- Witness for C2 at a concrete container holding only a non-integer,
non-directory entry. -/
theorem c2_revision_numbering_witness :
    createUniverseBranchCore "" [⟨"assets", false, []⟩] [] =
      ([BEvent.mkdirRev 0], .error .noPriorRevision) :=
  c2_revision_numbering.2.2.2.2.2.2.2 "" [⟨"assets", false, []⟩] []
    (by
      intro e he
      simp only [List.mem_singleton] at he
      subst he
      exact Or.inl rfl)
    (by
      intro e he
      simp only [List.mem_singleton] at he
      subst he
      decide)
    (by
      intro e he
      simp only [List.mem_singleton] at he
      subst he
      decide)

/-- Counterexample to C2 as stated: with no prior revision at all, the
committer creates the revision directory numbered 0 (the `mkdirRev 0`
event) before it fails with the no-prior-revision error, so the failure
is not "without creating a new revision directory". -/
theorem c2_counterexample :
    createUniverseBranchCore "" [] [] = ([BEvent.mkdirRev 0], .error .noPriorRevision) ∧
    [BEvent.mkdirRev 0] ≠ ([] : List BEvent) := by
  refine ⟨by decide, by decide⟩

/-! ## C8 and C10: the revision diff computation -/

theorem memB_iff (n : String) : ∀ l : List String, memB n l = true ↔ n ∈ l := by
  intro l
  induction l with
  | nil => simp [memB]
  | cons x xs ih =>
    simp only [memB, Bool.or_eq_true, decide_eq_true_eq, List.mem_cons, ih]
    constructor
    · rintro (h | h)
      · exact Or.inl h.symm
      · exact Or.inr h
    · rintro (h | h)
      · exact Or.inl h.symm
      · exact Or.inr h

theorem memB_false_iff (n : String) (l : List String) : memB n l = false ↔ n ∉ l := by
  rw [← memB_iff n l]
  constructor
  · intro h hh; rw [h] at hh; exact Bool.noConfusion hh
  · intro h
    cases hm : memB n l with
    | false => rfl
    | true => exact absurd hm h

theorem memB_erase_ne (n m : String) (h : n ≠ m) (l : List String) :
    memB n (l.erase m) = memB n l := by
  by_cases hm : n ∈ l
  · rw [(memB_iff n l).mpr hm, (memB_iff n _).mpr ((List.mem_erase_of_ne h).mpr hm)]
  · rw [(memB_false_iff n l).mpr hm,
      (memB_false_iff n _).mpr (fun hc => hm (List.mem_of_mem_erase hc))]

theorem fmCongr {α β : Type} (f g : α → Option β) :
    ∀ l : List α, (∀ a ∈ l, f a = g a) → l.filterMap f = l.filterMap g := by
  intro l
  induction l with
  | nil => intro _; rfl
  | cons x xs ih =>
    intro h
    rw [List.filterMap_cons, List.filterMap_cons, h x (List.mem_cons_self _ _),
      ih (fun a ha => h a (List.mem_cons_of_mem _ ha))]

theorem filter_not_memB_cons (m : String) (F : List String) :
    ∀ rem : List String, rem.Nodup →
      rem.filter (fun n => !memB n (m :: F)) =
        (rem.erase m).filter (fun n => !memB n F) := by
  intro rem
  induction rem with
  | nil => intro _; rfl
  | cons x xs ih =>
    intro h
    rcases List.nodup_cons.mp h with ⟨hx, hxs⟩
    by_cases hxm : x = m
    · subst hxm
      rw [List.erase_cons_head, List.filter_cons]
      have hmem : memB x (x :: F) = true := by simp [memB]
      rw [hmem]
      simp only [Bool.not_true, if_neg (by decide : ¬ false = true)]
      apply List.filter_congr
      intro n hn
      have hne : x ≠ n := fun hh => hx (hh ▸ hn)
      simp [memB, hne]
    · rw [List.erase_cons_tail, List.filter_cons, List.filter_cons]
      · have hnem : ¬ m = x := fun hh => hxm hh.symm
        have hmb : memB x (m :: F) = memB x F := by simp [memB, hnem]
        rw [hmb, ih hxs]
      · simp [hxm]

theorem filter_not_memB_erase (m : String) (rem : List String) :
    ∀ F : List String, m ∉ F →
      F.filter (fun n => !memB n (rem.erase m)) = F.filter (fun n => !memB n rem) := by
  intro F hm
  apply List.filter_congr
  intro n hn
  have hne : n ≠ m := fun hh => hm (hh ▸ hn)
  rw [memB_erase_ne n m hne rem]

theorem filter_not_memB_cons_notmem (m : String) (rem : List String) (hm : m ∉ rem) :
    ∀ F : List String,
      rem.filter (fun n => !memB n (m :: F)) = rem.filter (fun n => !memB n F) := by
  intro F
  apply List.filter_congr
  intro n hn
  have hne : m ≠ n := fun hh => hm (hh ▸ hn)
  simp [memB, hne]

theorem fileNames_cons_file (e : FsEntry) (rest : List FsEntry) (h : e.isFile = true) :
    fileNames (e :: rest) = e.name :: fileNames rest := by
  simp [fileNames, List.filter_cons, h]

theorem fileNames_cons_dir (e : FsEntry) (rest : List FsEntry) (h : e.isFile = false) :
    fileNames (e :: rest) = fileNames rest := by
  simp [fileNames, List.filter_cons, h]

/-- The full characterization of the copy/classify loop: on distinct
names and with every needed old entry present as a file, it succeeds and
returns precisely the removed/added/changed/copied lists predicted from
the inputs. -/
theorem diffLoop_spec (lastnum : Int) (oldEntries : List FsEntry) :
    ∀ (new : List FsEntry) (removed : List String),
      removed.Nodup →
      (new.map (fun e => e.name)).Nodup →
      (∀ n ∈ removed, (oldEntries.find? (fun o2 => o2.name = n)).isSome = true) →
      (∀ e ∈ new, e.isFile = true → e.name ∈ removed →
        ∀ o, oldEntries.find? (fun o2 => o2.name = e.name) = some o → o.isFile = true) →
      diffLoop lastnum oldEntries new removed =
        .ok (removed.filter (fun n => !memB n (fileNames new)),
          (fileNames new).filter (fun n => !memB n removed),
          new.filterMap (fun e =>
            if e.isFile && memB e.name removed then
              (oldEntries.find? (fun o2 => o2.name = e.name)).map
                (fun o => (e.name, mkDiff lastnum o e))
            else none),
          (new.filter (fun e => e.isFile)).map (fun e => (e.name, e.content))) := by
  intro new
  induction new with
  | nil =>
    intro removed h1 h2 h3 h4
    simp [diffLoop, fileNames, memB]
  | cons e rest ih =>
    intro removed h1 h2 h3 h4
    have h2rest : (rest.map (fun e2 => e2.name)).Nodup := (List.nodup_cons.mp h2).2
    have hname_tail : e.name ∉ rest.map (fun e2 => e2.name) := (List.nodup_cons.mp h2).1
    by_cases hf : e.isFile = true
    · by_cases hm : e.name ∈ removed
      · obtain ⟨o, ho⟩ := Option.isSome_iff_exists.mp (h3 e.name hm)
        have hof : o.isFile = true := h4 e (List.mem_cons_self _ _) hf hm o ho
        have hrec := ih (removed.erase e.name) (h1.erase _) h2rest
          (fun n hn => h3 n (List.mem_of_mem_erase hn))
          (fun e2 he2 hf2 hm2 o2 ho2 =>
            h4 e2 (List.mem_cons_of_mem _ he2) hf2 (List.mem_of_mem_erase hm2) o2 ho2)
        simp only [diffLoop, hf, if_true, hm, if_pos, ho, hof, hrec]
        rw [fileNames_cons_file e rest hf]
        refine congrArg Except.ok ?_
        refine Prod.ext ?_ (Prod.ext ?_ (Prod.ext ?_ ?_))
        · exact (filter_not_memB_cons e.name (fileNames rest) removed h1).symm
        · have hmb : memB e.name removed = true := (memB_iff _ _).mpr hm
          simp only [List.filter_cons, hmb, Bool.not_true, if_neg
            (by decide : ¬ false = true)]
          have hsub : e.name ∉ fileNames rest := by
            intro hc
            exact hname_tail (by
              rcases List.mem_map.mp ((by
                simpa [fileNames] using hc : e.name ∈
                  (rest.filter (fun e2 => e2.isFile)).map (fun e2 => e2.name)))
                with ⟨e2, he2, hne⟩
              exact List.mem_map.mpr ⟨e2, (List.mem_filter.mp he2).1, hne⟩)
          exact filter_not_memB_erase e.name removed (fileNames rest) hsub
        · rw [List.filterMap_cons]
          have hcond : (e.isFile && memB e.name removed) = true := by
            rw [hf, (memB_iff _ _).mpr hm]; rfl
          simp only [hcond, if_pos, ho, Option.map_some]
          refine congrArg₂ List.cons ?_ ?_
          · rfl
          · refine (fmCongr _ _ rest ?_).symm
            intro e2 he2
            by_cases hf2 : e2.isFile = true
            · have hne : e2.name ≠ e.name := by
                intro hc
                exact hname_tail (hc ▸ List.mem_map.mpr ⟨e2, he2, rfl⟩)
              rw [memB_erase_ne e2.name e.name hne removed]
            · simp only [Bool.not_eq_true] at hf2
              simp [hf2]
        · simp [List.filter_cons, hf]
      · have hrec := ih removed h1 h2rest h3
          (fun e2 he2 hf2 hm2 o2 ho2 =>
            h4 e2 (List.mem_cons_of_mem _ he2) hf2 hm2 o2 ho2)
        simp only [diffLoop, hf, if_true, hm, if_neg, hrec]
        rw [fileNames_cons_file e rest hf]
        refine congrArg Except.ok ?_
        refine Prod.ext ?_ (Prod.ext ?_ (Prod.ext ?_ ?_))
        · exact (filter_not_memB_cons_notmem e.name removed hm (fileNames rest)).symm
        · have hmb : memB e.name removed = false := (memB_false_iff _ _).mpr hm
          simp [List.filter_cons, hmb]
        · rw [List.filterMap_cons]
          have hcond : (e.isFile && memB e.name removed) = false := by
            rw [(memB_false_iff _ _).mpr hm, Bool.and_false]
          simp [hcond]
        · simp [List.filter_cons, hf]
    · simp only [Bool.not_eq_true] at hf
      have hrec := ih removed h1 h2rest h3
        (fun e2 he2 hf2 hm2 o2 ho2 =>
          h4 e2 (List.mem_cons_of_mem _ he2) hf2 hm2 o2 ho2)
      simp only [diffLoop, hf, Bool.false_eq_true, if_false, hrec]
      rw [fileNames_cons_dir e rest hf]
      refine congrArg Except.ok ?_
      refine Prod.ext rfl (Prod.ext rfl (Prod.ext ?_ ?_))
      · rw [List.filterMap_cons]
        simp [hf]
      · simp [List.filter_cons, hf]

theorem flatten_readlinesCh : ∀ l : List Char, (pyReadlinesCh l).flatten = l := by
  intro l
  induction l with
  | nil => rfl
  | cons c cs ih =>
    by_cases hc : c = '\n'
    · subst hc
      simp [pyReadlinesCh, ih]
    · simp only [pyReadlinesCh, hc, if_neg, if_false]
      cases hres : pyReadlinesCh cs with
      | nil =>
        have : cs = [] := by rw [← ih, hres]; rfl
        subst this
        rfl
      | cons g gs =>
        have : (g :: gs).flatten = cs := by rw [← hres, ih]
        simp only [List.flatten_cons] at this ⊢
        simp [this]

theorem pyReadlines_inj (s t : String) : pyReadlines s = pyReadlines t ↔ s = t := by
  constructor
  · intro h
    have hinj : Function.Injective List.asString := fun a b hab => congrArg String.data hab
    have hch : pyReadlinesCh s.data = pyReadlinesCh t.data :=
      (List.map_injective_iff.mpr hinj) h
    have hdata : s.data = t.data := by
      rw [← flatten_readlinesCh s.data, ← flatten_readlinesCh t.data, hch]
    cases s; cases t
    exact congrArg String.mk hdata
  · intro h; rw [h]

theorem strdata (s t : String) : (s ++ t).data = s.data ++ t.data := by
  cases s; cases t; rfl

theorem unifiedDiff_empty_iff (ff tf : String) (olds news : List String) :
    unifiedDiff ff tf olds news = "" ↔ olds = news := by
  constructor
  · intro h
    by_contra hne
    rw [unifiedDiff, if_neg hne] at h
    have hd := congrArg String.data h
    simp [strdata] at hd
  · intro h
    rw [unifiedDiff, if_pos h]

/-- C8: the diff computation classifies a filename present only in the
prior revision as removed, only in the new package directory as added,
and present in both as changed, keyed by filename with a unified
line-diff that is empty exactly when the two contents agree; the
specification's concrete example produces added `c.txt`, removed
`a.txt`, changed `b.txt` with a nonempty diff. -/
theorem c8_diff_classification :
    (∀ (lastnum : Int) (oldEntries new : List FsEntry),
      (∀ o ∈ oldEntries, o.isFile = true) →
      (oldEntries.map (fun e => e.name)).Nodup →
      (new.map (fun e => e.name)).Nodup →
      diffLoop lastnum oldEntries new (oldEntries.map (fun e => e.name)) =
        .ok ((oldEntries.map (fun e => e.name)).filter
            (fun n => !memB n (fileNames new)),
          (fileNames new).filter (fun n => !memB n (oldEntries.map (fun e => e.name))),
          new.filterMap (fun e =>
            if e.isFile && memB e.name (oldEntries.map (fun e2 => e2.name)) then
              (oldEntries.find? (fun o2 => o2.name = e.name)).map
                (fun o => (e.name, mkDiff lastnum o e))
            else none),
          (new.filter (fun e => e.isFile)).map (fun e => (e.name, e.content)))) ∧
    (∀ ff tf olds news, unifiedDiff ff tf olds news = "" ↔ olds = news) ∧
    (∀ s t : String, pyReadlines s = pyReadlines t ↔ s = t) ∧
    ((createUniverseBranchCore ""
        [⟨"1", true, [⟨"a.txt", true, "alpha\n"⟩, ⟨"b.txt", true, "old\n"⟩]⟩]
        [⟨"b.txt", true, "new\n"⟩, ⟨"c.txt", true, "gamma\n"⟩]).2 =
      .ok ⟨1, ["c.txt"], ["a.txt"],
        [("b.txt", unifiedDiff "1/b.txt" "2/b.txt" ["old\n"] ["new\n"])],
        [("b.txt", "new\n"), ("c.txt", "gamma\n")],
        renderResultLines "" 1 ["c.txt"] ["a.txt"]
          [("b.txt", unifiedDiff "1/b.txt" "2/b.txt" ["old\n"] ["new\n"])]⟩) ∧
    unifiedDiff "1/b.txt" "2/b.txt" ["old\n"] ["new\n"] ≠ "" := by
  refine ⟨?_, unifiedDiff_empty_iff, pyReadlines_inj, by decide, by decide⟩
  intro lastnum oldEntries new hfiles h1 h2
  apply diffLoop_spec lastnum oldEntries new (oldEntries.map (fun e => e.name)) h1 h2
  · intro n hn
    rw [List.find?_isSome]
    rcases List.mem_map.mp hn with ⟨o, ho, hname⟩
    exact ⟨o, ho, by simp [hname]⟩
  · intro e _ _ _ o ho
    exact hfiles o (List.mem_of_find?_eq_some ho)

/-- Witness for C8 at the concrete two-directory example. -/
theorem c8_diff_classification_witness :
    diffLoop 1 [⟨"a.txt", true, "alpha\n"⟩, ⟨"b.txt", true, "old\n"⟩]
      [⟨"b.txt", true, "new\n"⟩, ⟨"c.txt", true, "gamma\n"⟩] ["a.txt", "b.txt"] =
      .ok (["a.txt"], ["c.txt"],
        [("b.txt", mkDiff 1 ⟨"b.txt", true, "old\n"⟩ ⟨"b.txt", true, "new\n"⟩)],
        [("b.txt", "new\n"), ("c.txt", "gamma\n")]) := by
  have h := c8_diff_classification.1 1
    [⟨"a.txt", true, "alpha\n"⟩, ⟨"b.txt", true, "old\n"⟩]
    [⟨"b.txt", true, "new\n"⟩, ⟨"c.txt", true, "gamma\n"⟩]
    (by decide) (by decide) (by decide)
  have hmap : List.map (fun e : FsEntry => e.name)
      [⟨"a.txt", true, "alpha\n"⟩, ⟨"b.txt", true, "old\n"⟩] = ["a.txt", "b.txt"] := by
    decide
  rw [hmap] at h
  rw [h]
  decide

/-- C10 (amended): only top-level regular files of the package directory
are copied into the new revision or classified; package subdirectories
are silently skipped, and a subdirectory of the prior revision lands in
the removed list provided no new regular file shares its name (such a
collision instead aborts the loop when the old directory entry is opened
as a file). -/
theorem c10_only_files (lastnum : Int) (oldEntries new : List FsEntry)
    (h1 : (oldEntries.map (fun e => e.name)).Nodup)
    (h2 : (new.map (fun e => e.name)).Nodup)
    (h3 : ∀ e ∈ new, e.isFile = true → ∀ o ∈ oldEntries, o.name = e.name →
      o.isFile = true) :
    diffLoop lastnum oldEntries new (oldEntries.map (fun e => e.name)) =
      .ok ((oldEntries.map (fun e => e.name)).filter
          (fun n => !memB n (fileNames new)),
        (fileNames new).filter (fun n => !memB n (oldEntries.map (fun e => e.name))),
        new.filterMap (fun e =>
          if e.isFile && memB e.name (oldEntries.map (fun e2 => e2.name)) then
            (oldEntries.find? (fun o2 => o2.name = e.name)).map
              (fun o => (e.name, mkDiff lastnum o e))
          else none),
        (new.filter (fun e => e.isFile)).map (fun e => (e.name, e.content))) ∧
    (∀ e ∈ new, e.isFile = false → memB e.name (fileNames new) = false →
      e.name ∉ ((new.filter (fun e2 => e2.isFile)).map
        (fun e2 => (e2.name, e2.content))).map Prod.fst) ∧
    (∀ o ∈ oldEntries, o.isFile = false →
      o.name ∈ (oldEntries.map (fun e => e.name)).filter
        (fun n => !memB n (fileNames new))) := by
  refine ⟨?_, ?_, ?_⟩
  · apply diffLoop_spec lastnum oldEntries new (oldEntries.map (fun e => e.name)) h1 h2
    · intro n hn
      rw [List.find?_isSome]
      rcases List.mem_map.mp hn with ⟨o, ho, hname⟩
      exact ⟨o, ho, by simp [hname]⟩
    · intro e he hf _ o ho
      exact h3 e he hf o (List.mem_of_find?_eq_some ho)
        (by simpa using List.find?_some ho)
  · intro e _ _ hmb hc
    rcases List.mem_map.mp hc with ⟨p, hp, hname⟩
    rcases List.mem_map.mp hp with ⟨e2, he2, hpair⟩
    apply absurd ((memB_iff _ _).mpr ?_) (by rw [hmb]; decide)
    rcases List.mem_filter.mp he2 with ⟨he2m, he2f⟩
    apply List.mem_map.mpr
    refine ⟨e2, List.mem_filter.mpr ⟨he2m, he2f⟩, ?_⟩
    rw [← hpair] at hname
    exact hname
  · intro o ho hdir
    apply List.mem_filter.mpr
    refine ⟨List.mem_map.mpr ⟨o, ho, rfl⟩, ?_⟩
    have : memB o.name (fileNames new) = false := by
      rw [memB_false_iff]
      intro hc
      simp only [fileNames] at hc
      rcases List.mem_map.mp hc with ⟨e2, he2, hname⟩
      rcases List.mem_filter.mp he2 with ⟨he2m, he2f⟩
      have hfe := h3 e2 he2m he2f o ho hname.symm
      rw [hfe] at hdir
      exact Bool.noConfusion hdir
    rw [this]
    decide

/-- Witness for C10 at a concrete mixed directory. -/
theorem c10_only_files_witness :
    diffLoop 0 [⟨"d", false, ""⟩, ⟨"x.txt", true, "hi\n"⟩]
      [⟨"x.txt", true, "hi\n"⟩, ⟨"sub", false, ""⟩] ["d", "x.txt"] =
      .ok (["d"], [],
        [("x.txt", mkDiff 0 ⟨"x.txt", true, "hi\n"⟩ ⟨"x.txt", true, "hi\n"⟩)],
        [("x.txt", "hi\n")]) := by
  have h := (c10_only_files 0 [⟨"d", false, ""⟩, ⟨"x.txt", true, "hi\n"⟩]
    [⟨"x.txt", true, "hi\n"⟩, ⟨"sub", false, ""⟩]
    (by decide) (by decide)
    (by
      intro e he hf o hom hname
      fin_cases he <;> fin_cases hom <;> simp_all)).1
  have hmap : List.map (fun e : FsEntry => e.name)
      [⟨"d", false, ""⟩, ⟨"x.txt", true, "hi\n"⟩] = ["d", "x.txt"] := by decide
  rw [hmap] at h
  rw [h]
  decide

/-- Counterexample to C10 as stated: when a new regular file shares the
name of a subdirectory of the prior revision, the committer fails with
the directory-read error instead of counting the subdirectory as
removed. -/
theorem c10_counterexample :
    (createUniverseBranchCore "" [⟨"0", true, [⟨"d", false, ""⟩]⟩]
      [⟨"d", true, "x"⟩]).2 = .error .isADirectoryError := by
  decide

/-! ## C7: lemmas towards idempotence of the metadata rewrite -/

theorem replaceFuel_id (pat b : List Char) :
    ∀ (f : Nat) (l : List Char), containsSub pat l = false → replaceFuel pat b f l = l := by
  intro f
  induction f with
  | zero => intro l _; cases l <;> rfl
  | succ f ih =>
    intro l h
    cases l with
    | nil => rfl
    | cons c cs =>
      simp only [containsSub, Bool.or_eq_false_iff] at h
      simp only [replaceFuel, h.1, Bool.false_eq_true, if_false]
      rw [ih cs h.2]

theorem pyReplace_id (a b s : String) (h : containsSubS a s = false) :
    pyReplace a b s = s := by
  unfold pyReplace
  by_cases he : a.data.isEmpty = true
  · rw [if_pos he]
  · rw [if_neg he, replaceFuel_id a.data b.data s.data.length s.data h]
    cases s
    rfl

theorem strLeCh_refl : ∀ l : List Char, strLeCh l l = true := by
  intro l
  induction l with
  | nil => rfl
  | cons c cs ih => simp [strLeCh, ih]

theorem strLeCh_total : ∀ a b : List Char, strLeCh a b = false → strLeCh b a = true := by
  intro a
  induction a with
  | nil => intro b h; simp [strLeCh] at h
  | cons x xs ih =>
    intro b h
    cases b with
    | nil => rfl
    | cons y ys =>
      simp only [strLeCh] at h ⊢
      by_cases h1 : x.toNat < y.toNat
      · rw [if_pos h1] at h
        exact Bool.noConfusion h
      · rw [if_neg h1] at h
        by_cases h2 : y.toNat < x.toNat
        · rw [if_pos h2]
        · rw [if_neg h2] at h
          rw [if_neg (by omega), if_neg (by omega)]
          exact ih ys h

theorem strLe_total (a b : String) (h : strLe a b = false) : strLe b a = true :=
  strLeCh_total a.data b.data h

theorem strLe_false_ne (a b : String) (h : strLe a b = false) : a ≠ b := by
  intro hab
  subst hab
  rw [show strLe a a = true from strLeCh_refl a.data] at h
  exact Bool.noConfusion h

theorem lookupJ_insertSorted_self (k : String) (v : J) :
    ∀ t : J, lookupJ k (insertSorted k v t) = some v := by
  intro t
  induction t
  case ocons k2 v2 t2 ihv iht =>
    by_cases hle : strLe k k2 = true
    · simp [insertSorted, hle, lookupJ]
    · have hne : k ≠ k2 := strLe_false_ne k k2 (by
        cases hh : strLe k k2 with
        | false => rfl
        | true => exact absurd hh hle)
      have hk2 : ¬ k2 = k := fun hh => hne hh.symm
      simp [insertSorted, hle, lookupJ, hk2, iht]
  all_goals simp [insertSorted, lookupJ]

theorem lookupJ_insertSorted_other (k k2 : String) (v : J) (h : k2 ≠ k) :
    ∀ t : J, lookupJ k (insertSorted k2 v t) = lookupJ k t := by
  intro t
  induction t
  case ocons k3 v3 t3 ihv iht =>
    by_cases hle : strLe k2 k3 = true
    · simp [insertSorted, hle, lookupJ, h]
    · simp [insertSorted, hle, lookupJ, iht]
  all_goals simp [insertSorted, lookupJ, h]

theorem lookupJ_sortKeys (k : String) : ∀ l : J, lookupJ k (sortKeysJ l) = lookupJ k l := by
  intro l
  induction l
  case ocons k2 v2 t2 ihv iht =>
    by_cases hk : k2 = k
    · subst hk
      simp [sortKeysJ, lookupJ_insertSorted_self, lookupJ]
    · simp [sortKeysJ, lookupJ_insertSorted_other k k2 v2 hk, lookupJ, hk, iht]
  all_goals simp [sortKeysJ]

theorem lookupJ_canon (k : String) : ∀ l : J, lookupJ k (canon l) = (lookupJ k l).map canon := by
  intro l
  induction l
  case ocons k2 v2 t2 ihv iht =>
    by_cases hk : k2 = k
    · subst hk
      simp [canon, lookupJ]
    · simp [canon, lookupJ, hk, iht]
  all_goals simp [canon, lookupJ]

theorem hasKey_insertSorted (k k2 : String) (v : J) :
    ∀ t : J, hasKey k (insertSorted k2 v t) = ((k2 = k : Bool) || hasKey k t) := by
  intro t
  induction t
  case ocons k3 v3 t3 ihv iht =>
    by_cases hle : strLe k2 k3 = true
    · simp [insertSorted, hle, hasKey]
    · simp [insertSorted, hle, hasKey, iht]
      by_cases h1 : k2 = k <;> by_cases h2 : k3 = k <;> simp [h1, h2]
  all_goals simp [insertSorted, hasKey]

theorem hasKey_sortKeys (k : String) : ∀ l : J, hasKey k (sortKeysJ l) = hasKey k l := by
  intro l
  induction l
  case ocons k2 v2 t2 ihv iht =>
    simp [sortKeysJ, hasKey, hasKey_insertSorted, iht]
  all_goals simp [sortKeysJ]

theorem hasKey_canon (k : String) : ∀ l : J, hasKey k (canon l) = hasKey k l := by
  intro l
  induction l
  case ocons k2 v2 t2 ihv iht => simp [canon, hasKey, iht]
  all_goals simp [canon, hasKey, hasKey_sortKeys]

theorem hasKey_setItem_other (k k2 : String) (v : J) (h : k2 ≠ k) :
    ∀ l : J, hasKey k (pySetItem k2 v l) = hasKey k l := by
  intro l
  induction l
  case ocons k3 v3 t3 ihv iht =>
    by_cases h3 : k3 = k2
    · subst h3; simp [pySetItem, hasKey]
    · simp [pySetItem, h3, hasKey, iht]
  all_goals simp [pySetItem, hasKey, h]

theorem headKey_insertSorted (k k2 : String) (v : J) (t2 : J)
    (hge : strLe k2 k = true)
    (hhead : (match t2 with | J.ocons k3 _ _ => strLe k2 k3 | _ => true) = true) :
    (match insertSorted k v t2 with
      | J.ocons k3 _ _ => strLe k2 k3 | _ => true) = true := by
  cases t2
  case ocons k3 v3 t3 =>
    by_cases hle3 : strLe k k3 = true
    · simp [insertSorted, hle3, hge]
    · simp only [insertSorted, hle3, Bool.false_eq_true, if_false]
      simpa using hhead
  all_goals simp [insertSorted, hge]

theorem sortedKeys_insertSorted (k : String) (v : J) :
    ∀ t : J, sortedKeys t = true → sortedKeys (insertSorted k v t) = true := by
  intro t
  induction t
  case ocons k2 v2 t2 ihv iht =>
    intro h
    simp only [sortedKeys, Bool.and_eq_true] at h
    by_cases hle : strLe k k2 = true
    · simp only [insertSorted, hle, if_true, sortedKeys, Bool.and_eq_true, hle]
      exact ⟨by simp [hle], h.1, h.2⟩
    · have hge : strLe k2 k = true := strLe_total k k2 (by
        cases hh : strLe k k2 with
        | false => rfl
        | true => exact absurd hh hle)
      simp only [insertSorted, hle, Bool.false_eq_true, if_false, sortedKeys,
        Bool.and_eq_true]
      exact ⟨headKey_insertSorted k k2 v t2 hge h.1, iht h.2⟩
  all_goals intro h; simp [insertSorted, sortedKeys]

theorem sortedKeys_sortKeys : ∀ l : J, sortedKeys (sortKeysJ l) = true := by
  intro l
  induction l
  case ocons k2 v2 t2 ihv iht =>
    simp only [sortKeysJ]
    exact sortedKeys_insertSorted k2 v2 _ iht
  all_goals simp [sortKeysJ, sortedKeys]

theorem sortKeys_sorted_id : ∀ l : J, sortedKeys l = true → sortKeysJ l = l := by
  intro l
  induction l
  case ocons k2 v2 t2 ihv iht =>
    intro h
    simp only [sortedKeys, Bool.and_eq_true] at h
    simp only [sortKeysJ, iht h.2]
    cases t2
    case ocons k3 v3 t3 =>
      have hle : strLe k2 k3 = true := by simpa using h.1
      simp [insertSorted, hle]
    all_goals simp [insertSorted]
  all_goals intro h; simp [sortKeysJ]

theorem sortKeys_idem (l : J) : sortKeysJ (sortKeysJ l) = sortKeysJ l :=
  sortKeys_sorted_id (sortKeysJ l) (sortedKeys_sortKeys l)

theorem canon_insertSorted (k : String) (v : J) :
    ∀ t : J, canon (insertSorted k v t) = insertSorted k (canon v) (canon t) := by
  intro t
  induction t
  case ocons k2 v2 t2 ihv iht =>
    by_cases hle : strLe k k2 = true
    · simp [insertSorted, hle, canon]
    · simp [insertSorted, hle, canon, iht]
  all_goals simp [insertSorted, canon]

theorem canon_sortKeys : ∀ l : J, canon (sortKeysJ l) = sortKeysJ (canon l) := by
  intro l
  induction l
  case ocons k2 v2 t2 ihv iht =>
    simp only [sortKeysJ, canon_insertSorted, iht, canon]
  all_goals simp [sortKeysJ, canon]

theorem canon_idem : ∀ x : J, canon (canon x) = canon x := by
  intro x
  induction x
  case arr s ih => simp [canon, ih]
  case acons v t ihv iht => simp [canon, ihv, iht]
  case obj s ih =>
    simp only [canon, canon_sortKeys, ih, sortKeys_idem]
  case ocons k v t ihv iht => simp [canon, ihv, iht]
  all_goals simp [canon]

theorem isVal_canon : ∀ x : J, isVal (canon x) = isVal x := by
  intro x
  cases x <;> simp [canon, isVal]

theorem aSpine_canon : ∀ s : J, aSpine (canon s) = aSpine s := by
  intro s
  induction s
  case acons v t ihv iht => simp [canon, aSpine, isVal_canon, iht]
  all_goals simp [canon, aSpine]

theorem oSpine_insertSorted (k : String) (v : J) (hv : isVal v = true) :
    ∀ t : J, oSpine t = true → oSpine (insertSorted k v t) = true := by
  intro t
  induction t
  case ocons k2 v2 t2 ihv iht =>
    intro h
    simp only [oSpine, Bool.and_eq_true] at h
    by_cases hle : strLe k k2 = true
    · simp [insertSorted, hle, oSpine, hv, h.1, h.2]
    · simp [insertSorted, hle, oSpine, h.1, iht h.2]
  all_goals intro h; simp [oSpine] at h ⊢ <;> simp [insertSorted, oSpine, hv, h]

theorem oSpine_sortKeys : ∀ l : J, oSpine l = true → oSpine (sortKeysJ l) = true := by
  intro l
  induction l
  case ocons k2 v2 t2 ihv iht =>
    intro h
    simp only [oSpine, Bool.and_eq_true] at h
    simp only [sortKeysJ]
    exact oSpine_insertSorted k2 v2 h.1 _ (iht h.2)
  all_goals intro h; simpa [sortKeysJ] using h

theorem oSpine_canon : ∀ s : J, oSpine (canon s) = oSpine s := by
  intro s
  induction s
  case ocons k v t ihv iht => simp [canon, oSpine, isVal_canon, iht]
  all_goals simp [canon, oSpine]

theorem wf_insertSorted (k : String) (v : J) (hk : safeStr k = true)
    (hv : isVal v = true) (hwv : wf v = true) :
    ∀ t : J, wf t = true → oSpine t = true → hasKey k t = false →
      wf (insertSorted k v t) = true := by
  intro t
  induction t
  case ocons k2 v2 t2 ihv iht =>
    intro hw hs hnk
    simp only [wf, Bool.and_eq_true] at hw
    simp only [oSpine, Bool.and_eq_true] at hs
    simp [hasKey] at hnk
    by_cases hle : strLe k k2 = true
    · simp only [insertSorted, hle, if_true, wf, Bool.and_eq_true]
      refine ⟨⟨⟨⟨hk, ?_⟩, hv⟩, hwv⟩, ?_⟩
      · simp [hasKey, hnk.1, hnk.2]
      · exact hw
    · simp only [insertSorted, hle, Bool.false_eq_true, if_false, wf, Bool.and_eq_true]
      refine ⟨⟨⟨⟨hw.1.1.1.1, ?_⟩, hw.1.1.2⟩, hw.1.2⟩, iht hw.2 hs.2 hnk.2⟩
      rw [hasKey_insertSorted]
      have hne2 : ¬ k = k2 := fun hh => hnk.1 hh.symm
      have hkey2 : hasKey k2 t2 = false := by simpa using hw.1.1.1.2
      simp [hne2, hkey2]
  case onil =>
    intro _ _ _
    simp [insertSorted, wf, hasKey, hk, hv, hwv]
  all_goals intro _ hs _; simp [oSpine] at hs

theorem wf_sortKeys : ∀ l : J, wf l = true → oSpine l = true → wf (sortKeysJ l) = true := by
  intro l
  induction l
  case ocons k2 v2 t2 ihv iht =>
    intro hw hs
    simp only [wf, Bool.and_eq_true] at hw
    simp only [oSpine, Bool.and_eq_true] at hs
    simp only [sortKeysJ]
    refine wf_insertSorted k2 v2 hw.1.1.1.1 hw.1.1.2 hw.1.2 _ (iht hw.2 hs.2)
      (oSpine_sortKeys t2 hs.2) ?_
    rw [hasKey_sortKeys]
    simpa using hw.1.1.1.2
  all_goals intro hw _; simpa [sortKeysJ] using hw

theorem wf_canon : ∀ x : J, wf x = true → wf (canon x) = true := by
  intro x
  induction x
  case arr s ih =>
    intro hw
    simp only [wf, Bool.and_eq_true] at hw
    simp only [canon, wf, Bool.and_eq_true, aSpine_canon]
    exact ⟨hw.1, ih hw.2⟩
  case acons v t ihv iht =>
    intro hw
    simp only [wf, Bool.and_eq_true] at hw
    simp only [canon, wf, Bool.and_eq_true, isVal_canon]
    exact ⟨⟨hw.1.1, ihv hw.1.2⟩, iht hw.2⟩
  case obj s ih =>
    intro hw
    simp only [wf, Bool.and_eq_true] at hw
    simp only [canon, wf, Bool.and_eq_true]
    have hsp : oSpine (canon s) = true := by rw [oSpine_canon]; exact hw.1
    exact ⟨oSpine_sortKeys _ hsp, wf_sortKeys _ (ih hw.2) hsp⟩
  case ocons k v t ihv iht =>
    intro hw
    simp only [wf, Bool.and_eq_true] at hw
    simp only [canon, wf, Bool.and_eq_true, isVal_canon, hasKey_canon]
    exact ⟨⟨⟨⟨hw.1.1.1.1, hw.1.1.1.2⟩, hw.1.1.2⟩, ihv hw.1.2⟩, iht hw.2⟩
  all_goals intro hw; simpa [canon] using hw

theorem oSpine_setItem (k : String) (v : J) (hv : isVal v = true) :
    ∀ l : J, oSpine l = true → oSpine (pySetItem k v l) = true := by
  intro l
  induction l
  case ocons k2 v2 t2 ihv iht =>
    intro hs
    simp only [oSpine, Bool.and_eq_true] at hs
    by_cases h2 : k2 = k
    · simp [pySetItem, h2, oSpine, hv, hs.2]
    · simp [pySetItem, h2, oSpine, hs.1, iht hs.2]
  case onil => intro _; simp [pySetItem, oSpine, hv]
  all_goals intro hs; simp [oSpine] at hs

theorem wf_setItem (k : String) (v : J) (hk : safeStr k = true)
    (hv : isVal v = true) (hwv : wf v = true) :
    ∀ l : J, wf l = true → oSpine l = true → wf (pySetItem k v l) = true := by
  intro l
  induction l
  case ocons k2 v2 t2 ihv iht =>
    intro hw hs
    simp only [wf, Bool.and_eq_true] at hw
    simp only [oSpine, Bool.and_eq_true] at hs
    by_cases h2 : k2 = k
    · simp only [pySetItem, h2, if_pos, if_true, wf, Bool.and_eq_true]
      subst h2
      exact ⟨⟨⟨⟨hw.1.1.1.1, hw.1.1.1.2⟩, hv⟩, hwv⟩, hw.2⟩
    · simp only [pySetItem, h2, if_neg, if_false, wf, Bool.and_eq_true]
      refine ⟨⟨⟨⟨hw.1.1.1.1, ?_⟩, hw.1.1.2⟩, hw.1.2⟩, iht hw.2 hs.2⟩
      rw [hasKey_setItem_other k2 k v (fun hh => h2 hh.symm)]
      exact hw.1.1.1.2
  case onil => intro _ _; simp [pySetItem, wf, hasKey, hk, hv, hwv]
  all_goals intro _ hs; simp [oSpine] at hs
theorem digitChar_spec (n : Nat) (h : n < 10) :
    (Nat.digitChar n).isDigit = true ∧ (Nat.digitChar n).toNat - 48 = n := by
  interval_cases n <;> exact ⟨by decide, by decide⟩

theorem digitsVal_append (l : List Char) (d : Char) :
    digitsVal (l ++ [d]) = 10 * digitsVal l + (d.toNat - 48) := by
  simp only [digitsVal, List.foldl_append, List.foldl_cons, List.foldl_nil]
  omega

theorem natCharsAux_spec : ∀ (fuel n : Nat), n < fuel →
    (natCharsAux fuel n).all Char.isDigit = true ∧ natCharsAux fuel n ≠ [] ∧
      digitsVal (natCharsAux fuel n) = n := by
  intro fuel
  induction fuel with
  | zero => intro n h; omega
  | succ f ih =>
    intro n h
    by_cases h10 : n < 10
    · simp only [natCharsAux, h10, if_true]
      rcases digitChar_spec n h10 with ⟨hd, hv⟩
      refine ⟨by simp [hd], by simp, ?_⟩
      simpa [digitsVal] using hv
    · simp only [natCharsAux, h10, if_false]
      have hn0 : 0 < n := by omega
      have hdl := Nat.div_lt_self hn0 (by omega : 1 < 10)
      have hdiv : n / 10 < f := by omega
      rcases ih (n / 10) hdiv with ⟨ha, hne, hval⟩
      rcases digitChar_spec (n % 10) (Nat.mod_lt n (by omega)) with ⟨hd2, hv2⟩
      refine ⟨?_, by simp, ?_⟩
      · simp [List.all_append, ha, hd2]
      · rw [digitsVal_append, hval, hv2]
        omega

theorem natChars_spec (n : Nat) :
    (natChars n).all Char.isDigit = true ∧ natChars n ≠ [] ∧
      digitsVal (natChars n) = n :=
  natCharsAux_spec (n + 1) n (Nat.lt_succ_self n)

theorem takeWhile_all_append (p : Char → Bool) :
    ∀ (l r : List Char), l.all p = true → (∀ c, r.head? = some c → p c = false) →
      (l ++ r).takeWhile p = l ∧ (l ++ r).dropWhile p = r := by
  intro l
  induction l with
  | nil =>
    intro r _ hr
    cases r with
    | nil => exact ⟨rfl, rfl⟩
    | cons c cs =>
      have hc := hr c rfl
      simp [List.takeWhile_cons, List.dropWhile_cons, hc]
  | cons x xs ih =>
    intro r hall hr
    simp only [List.all_cons, Bool.and_eq_true] at hall
    rcases ih r hall.2 hr with ⟨h1, h2⟩
    simp [List.takeWhile_cons, List.dropWhile_cons, hall.1, h1, h2]

theorem headNotDigit_head (r : List Char) (hr : headNotDigit r = true) :
    ∀ c, r.head? = some c → Char.isDigit c = false := by
  intro c hc
  cases r with
  | nil => cases hc
  | cons c2 cs =>
    injection hc with hc
    subst hc
    simpa [headNotDigit] using hr

theorem parseNatLit_print (l r : List Char) (hall : l.all Char.isDigit = true)
    (hne : l ≠ []) (hr : headNotDigit r = true) :
    parseNatLit (l ++ r) = some (digitsVal l, r) := by
  rcases takeWhile_all_append Char.isDigit l r hall (headNotDigit_head r hr) with ⟨h1, h2⟩
  unfold parseNatLit
  rw [h1, h2]
  simp [List.isEmpty_iff, hne]

theorem ne_of_digit (d c : Char) (h1 : d.isDigit = true) (h2 : c.isDigit = false) :
    d ≠ c := by
  intro hd
  rw [hd, h2] at h1
  exact Bool.noConfusion h1

theorem digit_not_ws (d : Char) (h : d.isDigit = true) : isWsChar d = false := by
  simp [isWsChar, ne_of_digit d ' ' h (by decide), ne_of_digit d '\n' h (by decide),
    ne_of_digit d '\t' h (by decide), ne_of_digit d '\r' h (by decide)]

theorem natChars_head (n : Nat) :
    ∃ c cs, natChars n = c :: cs ∧ c.isDigit = true := by
  rcases natChars_spec n with ⟨hall, hne, _⟩
  cases hnc : natChars n with
  | nil => exact absurd hnc hne
  | cons c cs =>
    rw [hnc] at hall
    simp only [List.all_cons, Bool.and_eq_true] at hall
    exact ⟨c, cs, rfl, hall.1⟩

theorem parseIntLit_print (i : Int) (r : List Char) (hr : headNotDigit r = true) :
    parseIntLit (intChars i ++ r) = some (i, r) := by
  rcases natChars_spec i.natAbs with ⟨hall, hne, hval⟩
  have hpn := parseNatLit_print (natChars i.natAbs) r hall hne hr
  by_cases hi : i < 0
  · have hmap : parseIntLit (intChars i ++ r) =
        some (-(Int.ofNat (digitsVal (natChars i.natAbs))), r) := by
      simp [intChars, hi, parseIntLit, hpn]
    rw [hmap, hval]
    have h2 : -(Int.ofNat i.natAbs) = i := by
      simp only [Int.ofNat_eq_coe]
      omega
    rw [h2]
  · rcases natChars_head i.natAbs with ⟨c, cs, hnc, hcd⟩
    have hcm : c ≠ '-' := ne_of_digit c '-' hcd (by decide)
    have hmap : parseIntLit (intChars i ++ r) =
        some (Int.ofNat (digitsVal (natChars i.natAbs)), r) := by
      rw [intChars, if_neg hi, hnc]
      simp only [List.cons_append, parseIntLit, hcm, if_neg, if_false]
      rw [← List.cons_append, ← hnc, hpn]
      rfl
    rw [hmap, hval]
    have h2 : Int.ofNat i.natAbs = i := by
      simp only [Int.ofNat_eq_coe]
      omega
    rw [h2]

theorem safeChar_ne_quote (c : Char) (h : safeChar c = true) : c ≠ '"' := by
  intro hc
  rw [hc] at h
  exact absurd h (by decide)

theorem parseStrLit_print (s : String) (r : List Char) (hs : safeStr s = true) :
    parseStrLit (s.data ++ '"' :: r) = some (s, r) := by
  have hall : s.data.all (fun c => c ≠ '"') = true := by
    unfold safeStr at hs
    rw [List.all_eq_true] at hs ⊢
    intro c hc
    simpa using safeChar_ne_quote c (hs c hc)
  have hhd : ∀ c, ('"' :: r).head? = some c → (fun c2 => (c2 ≠ '"' : Bool)) c = false := by
    intro c hc
    injection hc with hc
    subst hc
    simp
  rcases takeWhile_all_append (fun c => c ≠ '"') s.data ('"' :: r) hall hhd with ⟨h1, h2⟩
  unfold parseStrLit
  rw [h1, h2]
  cases s
  rfl

theorem skipWs_append_ws (w l : List Char) (hw : allWs w = true) :
    skipWs (w ++ l) = skipWs l := by
  induction w with
  | nil => rfl
  | cons c cs ih =>
    simp only [allWs, List.all_cons, Bool.and_eq_true] at hw
    simp only [List.cons_append, skipWs, List.dropWhile_cons, hw.1, if_true]
    exact ih (by simpa [allWs] using hw.2)

theorem skipWs_cons_notws (c : Char) (l : List Char) (h : isWsChar c = false) :
    skipWs (c :: l) = c :: l := by
  simp [skipWs, List.dropWhile_cons, h]

theorem allWs_newline_spaces (n : Nat) : allWs ('\n' :: spaces n) = true := by
  simp only [allWs, List.all_cons, Bool.and_eq_true]
  refine ⟨by decide, ?_⟩
  rw [List.all_eq_true]
  intro c hc
  rw [List.eq_of_mem_replicate hc]
  decide

theorem printVal_head (ind : Nat) (v : J) (hv : isVal v = true) (hw : wf v = true) :
    ∃ c cs, printVal ind v = c :: cs ∧ isWsChar c = false ∧ c ≠ ']' ∧ c ≠ ',' := by
  cases v
  case null => exact ⟨'n', _, rfl, by decide, by decide, by decide⟩
  case jbool b =>
    cases b
    · exact ⟨'f', _, rfl, by decide, by decide, by decide⟩
    · exact ⟨'t', _, rfl, by decide, by decide, by decide⟩
  case jint i =>
    by_cases hi : i < 0
    · refine ⟨'-', natChars i.natAbs, ?_, by decide, by decide, by decide⟩
      simp [printVal, intChars, hi]
    · rcases natChars_head i.natAbs with ⟨c, cs, hnc, hcd⟩
      refine ⟨c, cs, ?_, digit_not_ws c hcd, ne_of_digit c ']' hcd (by decide),
        ne_of_digit c ',' hcd (by decide)⟩
      simp [printVal, intChars, hi, hnc]
  case jstr s => exact ⟨'"', _, rfl, by decide, by decide, by decide⟩
  case arr s =>
    have hsp : aSpine s = true := by
      simp only [wf, Bool.and_eq_true] at hw
      exact hw.1
    cases s
    case anil => exact ⟨'[', _, rfl, by decide, by decide, by decide⟩
    case acons v2 t2 => exact ⟨'[', _, rfl, by decide, by decide, by decide⟩
    all_goals simp [aSpine] at hsp
  case obj s =>
    have hsp : oSpine s = true := by
      simp only [wf, Bool.and_eq_true] at hw
      exact hw.1
    cases s
    case onil => exact ⟨lbrace, _, rfl, by decide, by decide, by decide⟩
    case ocons k2 v2 t2 => exact ⟨lbrace, _, rfl, by decide, by decide, by decide⟩
    all_goals simp [oSpine] at hsp
  all_goals simp [isVal] at hv

theorem sz_pos : ∀ x : J, 1 ≤ sz x := by
  intro x
  cases x <;> simp [sz] <;> omega

theorem parseAux_ws (f : Nat) (m : PMode) (ws l : List Char) (hws : allWs ws = true) :
    parseAux (f + 1) m (ws ++ l) = parseAux (f + 1) m l := by
  cases m <;> simp only [parseAux] <;> rw [skipWs_append_ws ws l hws]

theorem parseVal_null (f : Nat) (l : List Char) :
    parseAux (f + 1) .val ('n' :: 'u' :: 'l' :: 'l' :: l) = some (J.null, l) := by
  simp only [parseAux]
  rw [skipWs_cons_notws 'n' _ (by decide)]
  dsimp only
  rw [if_neg (by decide : ¬ ('n' : Char) = lbrace),
    if_neg (by decide : ¬ ('n' : Char) = '['),
    if_neg (by decide : ¬ ('n' : Char) = '"'),
    if_neg (by decide : ¬ ('n' : Char) = 't'),
    if_neg (by decide : ¬ ('n' : Char) = 'f'),
    if_pos (rfl : ('n' : Char) = 'n')]
  simp [List.isPrefixOf]

theorem parseVal_true (f : Nat) (l : List Char) :
    parseAux (f + 1) .val ('t' :: 'r' :: 'u' :: 'e' :: l) = some (J.jbool true, l) := by
  simp only [parseAux]
  rw [skipWs_cons_notws 't' _ (by decide)]
  dsimp only
  rw [if_neg (by decide : ¬ ('t' : Char) = lbrace),
    if_neg (by decide : ¬ ('t' : Char) = '['),
    if_neg (by decide : ¬ ('t' : Char) = '"'),
    if_pos (rfl : ('t' : Char) = 't')]
  simp [List.isPrefixOf]

theorem parseVal_false (f : Nat) (l : List Char) :
    parseAux (f + 1) .val ('f' :: 'a' :: 'l' :: 's' :: 'e' :: l) =
      some (J.jbool false, l) := by
  simp only [parseAux]
  rw [skipWs_cons_notws 'f' _ (by decide)]
  dsimp only
  rw [if_neg (by decide : ¬ ('f' : Char) = lbrace),
    if_neg (by decide : ¬ ('f' : Char) = '['),
    if_neg (by decide : ¬ ('f' : Char) = '"'),
    if_neg (by decide : ¬ ('f' : Char) = 't'),
    if_pos (rfl : ('f' : Char) = 'f')]
  simp [List.isPrefixOf]

theorem parseVal_str (f : Nat) (s : String) (l : List Char) (hs : safeStr s = true) :
    parseAux (f + 1) .val ('"' :: (s.data ++ '"' :: l)) = some (J.jstr s, l) := by
  simp only [parseAux]
  rw [skipWs_cons_notws '"' _ (by decide)]
  dsimp only
  rw [if_neg (by decide : ¬ ('"' : Char) = lbrace),
    if_neg (by decide : ¬ ('"' : Char) = '['),
    if_pos (rfl : ('"' : Char) = '"')]
  rw [parseStrLit_print s l hs]
  rfl

theorem parseVal_int (f : Nat) (i : Int) (l : List Char) (hr : headNotDigit l = true) :
    parseAux (f + 1) .val (intChars i ++ l) = some (J.jint i, l) := by
  by_cases hi : i < 0
  · have hic : intChars i = '-' :: natChars i.natAbs := by simp [intChars, hi]
    rw [hic, List.cons_append]
    simp only [parseAux]
    rw [skipWs_cons_notws '-' _ (by decide)]
    dsimp only
    rw [if_neg (by decide : ¬ ('-' : Char) = lbrace),
      if_neg (by decide : ¬ ('-' : Char) = '['),
      if_neg (by decide : ¬ ('-' : Char) = '"'),
      if_neg (by decide : ¬ ('-' : Char) = 't'),
      if_neg (by decide : ¬ ('-' : Char) = 'f'),
      if_neg (by decide : ¬ ('-' : Char) = 'n'),
      if_pos (by decide : (('-' : Char) = '-' || Char.isDigit '-') = true)]
    rw [← List.cons_append, ← hic, parseIntLit_print i l hr]
    rfl
  · rcases natChars_head i.natAbs with ⟨c, cs, hnc, hcd⟩
    have hic : intChars i = c :: cs := by simp [intChars, hi, hnc]
    rw [hic, List.cons_append]
    simp only [parseAux]
    rw [skipWs_cons_notws c _ (digit_not_ws c hcd)]
    dsimp only
    rw [if_neg (ne_of_digit c lbrace hcd (by decide)),
      if_neg (ne_of_digit c '[' hcd (by decide)),
      if_neg (ne_of_digit c '"' hcd (by decide)),
      if_neg (ne_of_digit c 't' hcd (by decide)),
      if_neg (ne_of_digit c 'f' hcd (by decide)),
      if_neg (ne_of_digit c 'n' hcd (by decide)),
      if_pos (show (c = '-' || c.isDigit) = true by rw [hcd]; simp)]
    rw [← List.cons_append, ← hic, parseIntLit_print i l hr]
    rfl

/-- The print/parse roundtrip, by induction on the parser fuel: a printed
well-formed value, possibly preceded by whitespace and followed by any
non-digit-initial rest, is read back exactly; likewise for printed array
and object spines followed by their closing bracket line. -/
theorem parse_print : ∀ f : Nat,
    (∀ (v : J) (ws : List Char) (ind : Nat) (r : List Char),
      isVal v = true → wf v = true → sz v ≤ f → allWs ws = true →
      headNotDigit r = true →
      parseAux f .val (ws ++ (printVal ind v ++ r)) = some (v, r)) ∧
    (∀ (ws r : List Char), 1 ≤ f → allWs ws = true →
      parseAux f .arrRest (ws ++ ']' :: r) = some (J.anil, r)) ∧
    (∀ (v t : J) (ws : List Char) (ind2 ind : Nat) (r : List Char),
      wf (J.acons v t) = true → aSpine (J.acons v t) = true →
      sz (J.acons v t) ≤ f → allWs ws = true →
      parseAux f .arrRest
          (ws ++ (printVal ind2 (J.acons v t) ++ '\n' :: (spaces ind ++ ']' :: r))) =
        some (J.acons v t, r)) ∧
    (∀ (ws r : List Char), 1 ≤ f → allWs ws = true →
      parseAux f .objRest (ws ++ rbrace :: r) = some (J.onil, r)) ∧
    (∀ (k : String) (v t : J) (ws : List Char) (ind2 ind : Nat) (r : List Char),
      wf (J.ocons k v t) = true → oSpine (J.ocons k v t) = true →
      sz (J.ocons k v t) ≤ f → allWs ws = true →
      parseAux f .objRest
          (ws ++ (printVal ind2 (J.ocons k v t) ++ '\n' :: (spaces ind ++ rbrace :: r))) =
        some (J.ocons k v t, r)) := by
  intro f
  induction f with
  | zero =>
    refine ⟨?_, ?_, ?_, ?_, ?_⟩
    · intro v _ _ _ _ _ hsz _ _
      have := sz_pos v
      omega
    · intro _ _ h _
      omega
    · intro v t _ _ _ _ _ _ hsz _
      have := sz_pos (J.acons v t)
      omega
    · intro _ _ h _
      omega
    · intro k v t _ _ _ _ _ _ hsz _
      have := sz_pos (J.ocons k v t)
      omega
  | succ f ih =>
    obtain ⟨ihV, ihA0, ihA1, ihO0, ihO1⟩ := ih
    have hA0succ : ∀ (ws r : List Char), allWs ws = true →
        parseAux (f + 1) .arrRest (ws ++ ']' :: r) = some (J.anil, r) := by
      intro ws r hws
      rw [parseAux_ws f .arrRest ws _ hws]
      simp only [parseAux]
      rw [skipWs_cons_notws ']' _ (by decide)]
      dsimp only
      rw [if_pos (rfl : (']' : Char) = ']')]
    have hO0succ : ∀ (ws r : List Char), allWs ws = true →
        parseAux (f + 1) .objRest (ws ++ rbrace :: r) = some (J.onil, r) := by
      intro ws r hws
      rw [parseAux_ws f .objRest ws _ hws]
      simp only [parseAux]
      rw [skipWs_cons_notws rbrace _ (by decide)]
      dsimp only
      rw [if_pos (rfl : rbrace = rbrace)]
    refine ⟨?_, fun ws r _ hws => hA0succ ws r hws, ?_,
      fun ws r _ hws => hO0succ ws r hws, ?_⟩
    · -- values
      intro v ws ind r hv hw hsz hws hr
      rw [parseAux_ws f .val ws _ hws]
      cases v
      case null => exact parseVal_null f r
      case jbool b =>
        cases b
        · exact parseVal_false f r
        · exact parseVal_true f r
      case jint i => exact parseVal_int f i r hr
      case jstr s =>
        have hss : safeStr s = true := by simpa [wf] using hw
        rw [show (printVal ind (J.jstr s) ++ r : List Char) =
            '"' :: (s.data ++ '"' :: r) by simp [printVal]]
        exact parseVal_str f s r hss
      case arr s =>
        simp only [wf, Bool.and_eq_true] at hw
        cases s
        case anil =>
          rw [show (printVal ind (J.arr J.anil) ++ r : List Char) = '[' :: ']' :: r by
            simp [printVal]]
          simp only [parseAux]
          rw [skipWs_cons_notws '[' _ (by decide)]
          dsimp only
          rw [if_neg (by decide : ¬ ('[' : Char) = lbrace),
            if_pos (rfl : ('[' : Char) = '[')]
          have h1 : 1 ≤ f := by
            simp [sz] at hsz
            omega
          have h2 := ihA0 [] r h1 (by decide)
          simp only [List.nil_append] at h2
          rw [h2]
          rfl
        case acons v2 t2 =>
          have h1 : (printVal ind (J.arr (J.acons v2 t2)) ++ r : List Char) =
              '[' :: (('\n' :: spaces (ind + 2)) ++ (printVal (ind + 2) (J.acons v2 t2) ++
                '\n' :: (spaces ind ++ ']' :: r))) := by
            simp [printVal]
          rw [h1]
          simp only [parseAux]
          rw [skipWs_cons_notws '[' _ (by decide)]
          dsimp only
          rw [if_neg (by decide : ¬ ('[' : Char) = lbrace),
            if_pos (rfl : ('[' : Char) = '[')]
          have hszA : sz (J.acons v2 t2) ≤ f := by
            simp only [sz] at hsz ⊢
            omega
          rw [ihA1 v2 t2 ('\n' :: spaces (ind + 2)) (ind + 2) ind r hw.2 hw.1 hszA
            (allWs_newline_spaces (ind + 2))]
          rfl
        all_goals simp [aSpine] at hw
      case obj s =>
        simp only [wf, Bool.and_eq_true] at hw
        cases s
        case onil =>
          rw [show (printVal ind (J.obj J.onil) ++ r : List Char) =
              lbrace :: rbrace :: r by simp [printVal]]
          simp only [parseAux]
          rw [skipWs_cons_notws lbrace _ (by decide)]
          dsimp only
          rw [if_pos (rfl : lbrace = lbrace)]
          have h1 : 1 ≤ f := by
            simp [sz] at hsz
            omega
          have h2 := ihO0 [] r h1 (by decide)
          simp only [List.nil_append] at h2
          rw [h2]
          rfl
        case ocons k2 v2 t2 =>
          have h1 : (printVal ind (J.obj (J.ocons k2 v2 t2)) ++ r : List Char) =
              lbrace :: (('\n' :: spaces (ind + 2)) ++
                (printVal (ind + 2) (J.ocons k2 v2 t2) ++
                  '\n' :: (spaces ind ++ rbrace :: r))) := by
            simp [printVal]
          rw [h1]
          simp only [parseAux]
          rw [skipWs_cons_notws lbrace _ (by decide)]
          dsimp only
          rw [if_pos (rfl : lbrace = lbrace)]
          have hszO : sz (J.ocons k2 v2 t2) ≤ f := by
            simp only [sz] at hsz ⊢
            omega
          rw [ihO1 k2 v2 t2 ('\n' :: spaces (ind + 2)) (ind + 2) ind r hw.2 hw.1 hszO
            (allWs_newline_spaces (ind + 2))]
          rfl
        all_goals simp [oSpine] at hw
      all_goals simp [isVal] at hv
    · -- array items
      intro v t ws ind2 ind r hw hsp hsz hws
      rw [parseAux_ws f .arrRest ws _ hws]
      simp only [wf, Bool.and_eq_true] at hw
      obtain ⟨c, cs, hpv, hcw, hcbr, hccm⟩ := printVal_head ind2 v hw.1.1 hw.1.2
      cases t
      case anil =>
        rw [show (printVal ind2 (J.acons v J.anil) ++ '\n' :: (spaces ind ++ ']' :: r) :
            List Char) = c :: (cs ++ '\n' :: (spaces ind ++ ']' :: r)) by
          rw [show printVal ind2 (J.acons v J.anil) = printVal ind2 v from rfl, hpv]
          simp]
        simp only [parseAux]
        rw [skipWs_cons_notws c _ hcw]
        dsimp only
        rw [if_neg hcbr]
        rw [show (c :: (cs ++ '\n' :: (spaces ind ++ ']' :: r)) : List Char) =
            printVal ind2 v ++ '\n' :: (spaces ind ++ ']' :: r) by rw [hpv]; simp]
        have hV := ihV v [] ind2 ('\n' :: (spaces ind ++ ']' :: r)) hw.1.1 hw.1.2
          (by simp only [sz] at hsz; have := sz_pos v; omega) (by decide) (by rfl)
        simp only [List.nil_append] at hV
        rw [hV]
        dsimp only
        rw [show skipWs ('\n' :: (spaces ind ++ ']' :: r)) = ']' :: r from by
          rw [show ('\n' :: (spaces ind ++ ']' :: r) : List Char) =
              ('\n' :: spaces ind) ++ ']' :: r by simp]
          rw [skipWs_append_ws _ _ (allWs_newline_spaces ind),
            skipWs_cons_notws ']' _ (by decide)]]
        dsimp only
        rw [if_neg (by decide : ¬ (']' : Char) = ','),
          if_pos (rfl : (']' : Char) = ']')]
      case acons v2 t2 =>
        simp only [aSpine, Bool.and_eq_true] at hsp
        have hshape : (printVal ind2 (J.acons v (J.acons v2 t2)) ++
            '\n' :: (spaces ind ++ ']' :: r) : List Char) =
            printVal ind2 v ++ ',' :: '\n' :: (spaces ind2 ++
              (printVal ind2 (J.acons v2 t2) ++ '\n' :: (spaces ind ++ ']' :: r))) := by
          rw [show printVal ind2 (J.acons v (J.acons v2 t2)) =
              printVal ind2 v ++ ',' :: '\n' :: (spaces ind2 ++
                printVal ind2 (J.acons v2 t2)) from rfl]
          simp
        rw [hshape, hpv, List.cons_append]
        simp only [parseAux]
        rw [skipWs_cons_notws c _ hcw]
        dsimp only
        rw [if_neg hcbr]
        rw [← List.cons_append, ← hpv]
        have hV := ihV v [] ind2 (',' :: '\n' :: (spaces ind2 ++
            (printVal ind2 (J.acons v2 t2) ++ '\n' :: (spaces ind ++ ']' :: r))))
            hw.1.1 hw.1.2
          (by simp only [sz] at hsz; have := sz_pos (J.acons v2 t2); omega)
          (by decide) (by rfl)
        simp only [List.nil_append] at hV
        rw [hV]
        dsimp only
        rw [skipWs_cons_notws ',' _ (by decide)]
        dsimp only
        rw [if_pos (rfl : (',' : Char) = ',')]
        have hA := ihA1 v2 t2 ('\n' :: spaces ind2) ind2 ind r hw.2
          (by simp only [aSpine, Bool.and_eq_true]; exact hsp.2)
          (by simp only [sz] at hsz ⊢; have := sz_pos v; omega)
          (allWs_newline_spaces ind2)
        rw [show ('\n' :: (spaces ind2 ++ (printVal ind2 (J.acons v2 t2) ++
            '\n' :: (spaces ind ++ ']' :: r))) : List Char) =
            ('\n' :: spaces ind2) ++ (printVal ind2 (J.acons v2 t2) ++
              '\n' :: (spaces ind ++ ']' :: r)) by simp]
        rw [hA]
      all_goals simp [aSpine] at hsp
    · -- object fields
      intro k v t ws ind2 ind r hw hsp hsz hws
      rw [parseAux_ws f .objRest ws _ hws]
      simp only [wf, Bool.and_eq_true] at hw
      have hsk : safeStr k = true := hw.1.1.1.1
      have hiv : isVal v = true := hw.1.1.2
      have hwv : wf v = true := hw.1.2
      cases t
      case onil =>
        have hshape : (printVal ind2 (J.ocons k v J.onil) ++
            '\n' :: (spaces ind ++ rbrace :: r) : List Char) =
            '"' :: (k.data ++ '"' :: ':' :: ' ' ::
              (printVal ind2 v ++ '\n' :: (spaces ind ++ rbrace :: r))) := by
          rw [show printVal ind2 (J.ocons k v J.onil) =
              '"' :: (k.data ++ '"' :: ':' :: ' ' :: printVal ind2 v) from rfl]
          simp
        rw [hshape]
        simp only [parseAux]
        rw [skipWs_cons_notws '"' _ (by decide)]
        dsimp only
        rw [if_neg (by decide : ¬ ('"' : Char) = rbrace),
          if_pos (rfl : ('"' : Char) = '"')]
        rw [show (k.data ++ '"' :: ':' :: ' ' ::
            (printVal ind2 v ++ '\n' :: (spaces ind ++ rbrace :: r)) : List Char) =
            k.data ++ '"' :: (':' :: ' ' ::
              (printVal ind2 v ++ '\n' :: (spaces ind ++ rbrace :: r))) from rfl]
        rw [parseStrLit_print k _ hsk]
        dsimp only
        rw [skipWs_cons_notws ':' _ (by decide)]
        dsimp only
        rw [if_pos (rfl : (':' : Char) = ':')]
        have hV := ihV v [' '] ind2 ('\n' :: (spaces ind ++ rbrace :: r)) hiv hwv
          (by simp only [sz] at hsz; have := sz_pos v; omega) (by decide) (by rfl)
        rw [show (' ' :: (printVal ind2 v ++ '\n' :: (spaces ind ++ rbrace :: r)) :
            List Char) = [' '] ++ (printVal ind2 v ++
              '\n' :: (spaces ind ++ rbrace :: r)) from rfl]
        rw [hV]
        dsimp only
        rw [show skipWs ('\n' :: (spaces ind ++ rbrace :: r)) = rbrace :: r from by
          rw [show ('\n' :: (spaces ind ++ rbrace :: r) : List Char) =
              ('\n' :: spaces ind) ++ rbrace :: r by simp]
          rw [skipWs_append_ws _ _ (allWs_newline_spaces ind),
            skipWs_cons_notws rbrace _ (by decide)]]
        dsimp only
        rw [if_neg (by decide : ¬ rbrace = ','), if_pos (rfl : rbrace = rbrace)]
      case ocons k2 v2 t2 =>
        simp only [oSpine, Bool.and_eq_true] at hsp
        have hshape : (printVal ind2 (J.ocons k v (J.ocons k2 v2 t2)) ++
            '\n' :: (spaces ind ++ rbrace :: r) : List Char) =
            '"' :: (k.data ++ '"' :: ':' :: ' ' ::
              (printVal ind2 v ++ ',' :: '\n' :: (spaces ind2 ++
                (printVal ind2 (J.ocons k2 v2 t2) ++
                  '\n' :: (spaces ind ++ rbrace :: r))))) := by
          rw [show printVal ind2 (J.ocons k v (J.ocons k2 v2 t2)) =
              ('"' :: (k.data ++ '"' :: ':' :: ' ' :: printVal ind2 v)) ++
                ',' :: '\n' :: (spaces ind2 ++
                  printVal ind2 (J.ocons k2 v2 t2)) from rfl]
          simp
        rw [hshape]
        simp only [parseAux]
        rw [skipWs_cons_notws '"' _ (by decide)]
        dsimp only
        rw [if_neg (by decide : ¬ ('"' : Char) = rbrace),
          if_pos (rfl : ('"' : Char) = '"')]
        rw [show (k.data ++ '"' :: ':' :: ' ' ::
            (printVal ind2 v ++ ',' :: '\n' :: (spaces ind2 ++
              (printVal ind2 (J.ocons k2 v2 t2) ++
                '\n' :: (spaces ind ++ rbrace :: r)))) : List Char) =
            k.data ++ '"' :: (':' :: ' ' ::
              (printVal ind2 v ++ ',' :: '\n' :: (spaces ind2 ++
                (printVal ind2 (J.ocons k2 v2 t2) ++
                  '\n' :: (spaces ind ++ rbrace :: r))))) from rfl]
        rw [parseStrLit_print k _ hsk]
        dsimp only
        rw [skipWs_cons_notws ':' _ (by decide)]
        dsimp only
        rw [if_pos (rfl : (':' : Char) = ':')]
        have hV := ihV v [' '] ind2 (',' :: '\n' :: (spaces ind2 ++
            (printVal ind2 (J.ocons k2 v2 t2) ++
              '\n' :: (spaces ind ++ rbrace :: r)))) hiv hwv
          (by simp only [sz] at hsz; have := sz_pos (J.ocons k2 v2 t2); omega)
          (by decide) (by rfl)
        rw [show (' ' :: (printVal ind2 v ++ ',' :: '\n' :: (spaces ind2 ++
            (printVal ind2 (J.ocons k2 v2 t2) ++
              '\n' :: (spaces ind ++ rbrace :: r)))) : List Char) =
            [' '] ++ (printVal ind2 v ++ (',' :: '\n' :: (spaces ind2 ++
              (printVal ind2 (J.ocons k2 v2 t2) ++
                '\n' :: (spaces ind ++ rbrace :: r))))) from rfl]
        rw [hV]
        dsimp only
        rw [skipWs_cons_notws ',' _ (by decide)]
        dsimp only
        rw [if_pos (rfl : (',' : Char) = ',')]
        have hO := ihO1 k2 v2 t2 ('\n' :: spaces ind2) ind2 ind r hw.2
          (by simp only [oSpine, Bool.and_eq_true]; exact hsp.2)
          (by simp only [sz] at hsz ⊢; have := sz_pos v; omega)
          (allWs_newline_spaces ind2)
        rw [show ('\n' :: (spaces ind2 ++ (printVal ind2 (J.ocons k2 v2 t2) ++
            '\n' :: (spaces ind ++ rbrace :: r))) : List Char) =
            ('\n' :: spaces ind2) ++ (printVal ind2 (J.ocons k2 v2 t2) ++
              '\n' :: (spaces ind ++ rbrace :: r)) by simp]
        rw [hO]
      all_goals simp [oSpine] at hsp

/-- The parser fuel account: a printed value is at least as long as its
node count (values tightly, spines with a slack of two for the empty
spine). -/
theorem sz_le_print : ∀ (v : J) (ind : Nat),
    (isVal v = true → wf v = true → sz v ≤ (printVal ind v).length) ∧
    (wf v = true → sz v ≤ (printVal ind v).length + 2) := by
  intro v
  induction v with
  | null =>
    intro ind
    exact ⟨fun _ _ => by simp [sz, printVal], fun _ => by simp [sz, printVal]⟩
  | jbool b =>
    intro ind
    cases b
    · exact ⟨fun _ _ => by simp [sz, printVal], fun _ => by simp [sz, printVal]⟩
    · exact ⟨fun _ _ => by simp [sz, printVal], fun _ => by simp [sz, printVal]⟩
  | jint i =>
    intro ind
    have h1 : 1 ≤ (intChars i).length := by
      have h := (natChars_spec i.natAbs).2.1
      have h2 : 1 ≤ (natChars i.natAbs).length := List.length_pos.mpr h
      unfold intChars
      split
      · simp only [List.length_cons]
        omega
      · exact h2
    exact ⟨fun _ _ => by simp only [sz, printVal]; omega,
      fun _ => by simp only [sz, printVal]; omega⟩
  | jstr s =>
    intro ind
    refine ⟨fun _ _ => ?_, fun _ => ?_⟩ <;>
      simp [sz, printVal]
  | arr s ihs =>
    intro ind
    refine ⟨fun _ hw => ?_, fun hw => ?_⟩ <;>
    · simp only [wf, Bool.and_eq_true] at hw
      cases s
      case anil => simp [sz, printVal]
      case acons v2 t2 =>
        have h := (ihs (ind + 2)).2 hw.2
        simp only [sz, printVal, List.length_cons, List.length_append, spaces,
          List.length_replicate] at h ⊢
        omega
      all_goals simp [aSpine] at hw
  | obj s ihs =>
    intro ind
    refine ⟨fun _ hw => ?_, fun hw => ?_⟩ <;>
    · simp only [wf, Bool.and_eq_true] at hw
      cases s
      case onil => simp [sz, printVal]
      case ocons k2 v2 t2 =>
        have h := (ihs (ind + 2)).2 hw.2
        simp only [sz, printVal, List.length_cons, List.length_append, spaces,
          List.length_replicate] at h ⊢
        omega
      all_goals simp [oSpine] at hw
  | anil =>
    intro ind
    exact ⟨fun h => by simp [isVal] at h, fun _ => by simp [sz, printVal]⟩
  | acons v t ihv iht =>
    intro ind
    refine ⟨fun h _ => by simp [isVal] at h, fun hw => ?_⟩
    simp only [wf, Bool.and_eq_true] at hw
    have h1 := (ihv ind).1 hw.1.1 hw.1.2
    have h2 := (iht ind).2 hw.2
    cases t
    case anil =>
      simp only [sz, printVal] at h2 ⊢
      omega
    all_goals
      simp only [sz, printVal, List.length_cons, List.length_append, spaces,
        List.length_replicate] at h2 ⊢
    all_goals omega
  | onil =>
    intro ind
    exact ⟨fun h => by simp [isVal] at h, fun _ => by simp [sz, printVal]⟩
  | ocons k v t ihv iht =>
    intro ind
    refine ⟨fun h _ => by simp [isVal] at h, fun hw => ?_⟩
    simp only [wf, Bool.and_eq_true] at hw
    have h1 := (ihv ind).1 hw.1.1.2 hw.1.2
    have h2 := (iht ind).2 hw.2
    cases t
    case onil =>
      simp only [sz, printVal, List.length_cons, List.length_append] at h2 ⊢
      omega
    all_goals
      simp only [sz, printVal, List.length_cons, List.length_append, spaces,
        List.length_replicate] at h2 ⊢
    all_goals omega

/-- `json.loads` inverts the canonical printer followed by the final
newline, on well-formed values. -/
theorem loads_print (v : J) (hv : isVal v = true) (hw : wf v = true) :
    loads ((printVal 0 v).asString ++ "\n") = some v := by
  have hdata : ((printVal 0 v).asString ++ "\n").data = printVal 0 v ++ ['\n'] :=
    strdata _ _
  have hlen : ((printVal 0 v).asString ++ "\n").length = (printVal 0 v).length + 1 := by
    show ((printVal 0 v).asString ++ "\n").data.length = _
    rw [hdata]
    simp
  unfold loads
  rw [hdata, hlen]
  have hp := (parse_print ((printVal 0 v).length + 1 + 1)).1 v [] 0 ['\n'] hv hw
    (by have := (sz_le_print v 0).2 hw; omega) (by decide) (by decide)
  simp only [List.nil_append] at hp
  rw [hp]
  rfl

theorem map_eq_self_of_mem {α : Type} (l : List α) (f : α → α)
    (h : ∀ a ∈ l, f a = a) : l.map f = l := by
  induction l with
  | nil => rfl
  | cons hd tl ih =>
    simp only [List.map_cons]
    rw [h hd (List.mem_cons_self hd tl), ih (fun a ha => h a (List.mem_cons_of_mem hd ha))]

theorem filter_eq_nil_of_mem {α : Type} (l : List α) (p : α → Bool)
    (h : ∀ a ∈ l, p a = false) : l.filter p = [] := by
  induction l with
  | nil => rfl
  | cons hd tl ih =>
    simp only [List.filter_cons, h hd (List.mem_cons_self hd tl), Bool.false_eq_true,
      if_false]
    exact ih (fun a ha => h a (List.mem_cons_of_mem hd ha))

theorem find_map_pairs (q : String × String → Bool) (g : String × String → String)
    (hq : ∀ f : String × String, q (f.1, g f) = q f) :
    ∀ l : List (String × String),
      (l.map (fun f => (f.1, g f))).find? q = (l.find? q).map (fun f => (f.1, g f)) := by
  intro l
  induction l with
  | nil => rfl
  | cons hd tl ih =>
    simp only [List.map_cons]
    by_cases hp : q hd = true
    · rw [List.find?_cons_of_pos _ hp, List.find?_cons_of_pos _ (by rw [hq]; exact hp)]
      rfl
    · rw [List.find?_cons_of_neg _ (by rw [hq]; simpa using hp),
        List.find?_cons_of_neg _ (by simpa using hp), ih]

/-- The three field assignments of step 1 fix the canonically sorted
result of a previous application with the same inputs. -/
theorem updateFields_fixed (pv md : String) (l : J) :
    updateFields pv md (sortKeysJ (canon (updateFields pv md l))) =
      sortKeysJ (canon (updateFields pv md l)) := by
  unfold updateFields
  dsimp only
  by_cases hD : (md = "0" ∨ md = "")
  · have hDb : (decide (md = "0") || decide (md = "")) = true := by
      rcases hD with h | h <;> simp [h]
    simp only [if_pos hDb]
    have hlv : lookupJ "version"
        (sortKeysJ (canon (pySetItem "packagingVersion" (J.jstr "3.0")
          (pySetItem "version" (J.jstr pv) l)))) = some (J.jstr pv) := by
      rw [lookupJ_sortKeys, lookupJ_canon,
        lookupJ_setItem_other _ _ _ _ (by decide), lookupJ_setItem_self]
      rfl
    have hlp : lookupJ "packagingVersion"
        (sortKeysJ (canon (pySetItem "packagingVersion" (J.jstr "3.0")
          (pySetItem "version" (J.jstr pv) l)))) = some (J.jstr "3.0") := by
      rw [lookupJ_sortKeys, lookupJ_canon, lookupJ_setItem_self]
      rfl
    rw [setItem_id _ _ _ hlv, setItem_id _ _ _ hlp]
  · have hDb : ¬ ((decide (md = "0") || decide (md = "")) = true) := by
      simpa [not_or] using hD
    simp only [if_neg hDb]
    have hlv : lookupJ "version"
        (sortKeysJ (canon (pySetItem "minDcosReleaseVersion" (J.jstr md)
          (pySetItem "packagingVersion" (J.jstr "3.0")
            (pySetItem "version" (J.jstr pv) l))))) = some (J.jstr pv) := by
      rw [lookupJ_sortKeys, lookupJ_canon,
        lookupJ_setItem_other _ _ _ _ (by decide),
        lookupJ_setItem_other _ _ _ _ (by decide), lookupJ_setItem_self]
      rfl
    have hlp : lookupJ "packagingVersion"
        (sortKeysJ (canon (pySetItem "minDcosReleaseVersion" (J.jstr md)
          (pySetItem "packagingVersion" (J.jstr "3.0")
            (pySetItem "version" (J.jstr pv) l))))) = some (J.jstr "3.0") := by
      rw [lookupJ_sortKeys, lookupJ_canon,
        lookupJ_setItem_other _ _ _ _ (by decide), lookupJ_setItem_self]
      rfl
    have hlm : lookupJ "minDcosReleaseVersion"
        (sortKeysJ (canon (pySetItem "minDcosReleaseVersion" (J.jstr md)
          (pySetItem "packagingVersion" (J.jstr "3.0")
            (pySetItem "version" (J.jstr pv) l))))) = some (J.jstr md) := by
      rw [lookupJ_sortKeys, lookupJ_canon, lookupJ_setItem_self]
      rfl
    rw [setItem_id _ _ _ hlv, setItem_id _ _ _ hlp, setItem_id _ _ _ hlm]

/-- Step 1 preserves spine shape and well-formedness when the configured
version strings are escape-free. -/
theorem updateFields_wf (pv md : String) (l : J) (hs : oSpine l = true)
    (hw : wf l = true) (h1 : safeStr pv = true) (h2 : safeStr md = true) :
    oSpine (updateFields pv md l) = true ∧ wf (updateFields pv md l) = true := by
  have hA1 : oSpine (pySetItem "version" (J.jstr pv) l) = true :=
    oSpine_setItem "version" (J.jstr pv) rfl l hs
  have hW1 : wf (pySetItem "version" (J.jstr pv) l) = true :=
    wf_setItem "version" (J.jstr pv) (by decide) rfl (by simpa [wf] using h1) l hw hs
  have hA2 : oSpine (pySetItem "packagingVersion" (J.jstr "3.0")
      (pySetItem "version" (J.jstr pv) l)) = true :=
    oSpine_setItem "packagingVersion" (J.jstr "3.0") rfl _ hA1
  have hW2 : wf (pySetItem "packagingVersion" (J.jstr "3.0")
      (pySetItem "version" (J.jstr pv) l)) = true :=
    wf_setItem "packagingVersion" (J.jstr "3.0") (by decide) rfl (by decide) _ hW1 hA1
  unfold updateFields
  dsimp only
  split
  · exact ⟨hA2, hW2⟩
  · exact ⟨oSpine_setItem "minDcosReleaseVersion" (J.jstr md) rfl _ hA2,
      wf_setItem "minDcosReleaseVersion" (J.jstr md) (by decide) rfl
        (by simpa [wf] using h2) _ hW2 hA2⟩

/-- Step 1 is the identity on a document it has already produced (parse
of the canonical dump gives the sorted fields back, the assignments fix
them, and the canonical dump reproduces the same text). -/
theorem stepA_of_fix (cfg : RWConfig) (d : J)
    (hfix : updateFields cfg.pkgVersion cfg.minDcosVersion (sortKeysJ (canon d)) =
      sortKeysJ (canon d))
    (hwobj : wf (J.obj d) = true) :
    stepA cfg (dumpsPkgJson (J.obj d)) = some (dumpsPkgJson (J.obj d)) := by
  have hload : loads (dumpsPkgJson (J.obj d)) = some (canon (J.obj d)) :=
    loads_print (canon (J.obj d)) rfl (wf_canon _ hwobj)
  unfold stepA
  rw [hload, show canon (J.obj d) = J.obj (sortKeysJ (canon d)) from rfl]
  dsimp only
  rw [hfix]
  have hcc : canon (J.obj (sortKeysJ (canon d))) = canon (J.obj d) := by
    show canon (canon (J.obj d)) = canon (J.obj d)
    exact canon_idem _
  rw [show dumpsPkgJson (J.obj (sortKeysJ (canon d))) =
      (printVal 0 (canon (J.obj (sortKeysJ (canon d))))).asString ++ "\n" from rfl, hcc]
  rfl

/-- C7 (amended): the metadata rewrite is idempotent provided the
replacement step does not reintroduce the original artifact prefix: if
the first pass succeeds on a directory whose `package.json` parses to a
well-formed object, the configured version strings are escape-free, the
freshly serialized `package.json` does not contain the original prefix,
and no file's rewritten content still contains it, then a second pass
over the rewritten directory returns it unchanged and writes nothing.
(Unconditional idempotence, as claimed, fails: see the counterexample,
where the destination prefix contains the source prefix and each pass
rewrites artifact URLs again.) -/
theorem c7_rewrite_idempotent (cfg : RWConfig) (files : List (String × String))
    (l : J) (c0 : String)
    (hfind : files.find? (fun f => f.1 = "package.json") = some ("package.json", c0))
    (hload : loads c0 = some (J.obj l)) (hwf : wf (J.obj l) = true)
    (hs1 : safeStr cfg.pkgVersion = true) (hs2 : safeStr cfg.minDcosVersion = true)
    (hA : containsSubS (origPfx cfg)
      (dumpsPkgJson (J.obj (updateFields cfg.pkgVersion cfg.minDcosVersion l))) = false)
    (hB : ∀ f ∈ files, containsSubS (origPfx cfg)
      (pyReplace (origPfx cfg) cfg.releaseHttpDir f.2) = false) :
    ∃ files2 urls1 w1 urls2,
      updatePackage cfg files = some (files2, urls1, w1) ∧
      updatePackage cfg files2 = some (files2, urls2, []) := by
  have hstepA : stepA cfg c0 =
      some (dumpsPkgJson (J.obj (updateFields cfg.pkgVersion cfg.minDcosVersion l))) := by
    unfold stepA
    rw [hload]
  have hc1fix : pyReplace (origPfx cfg) cfg.releaseHttpDir
      (dumpsPkgJson (J.obj (updateFields cfg.pkgVersion cfg.minDcosVersion l))) =
      dumpsPkgJson (J.obj (updateFields cfg.pkgVersion cfg.minDcosVersion l)) :=
    pyReplace_id _ _ _ hA
  have hpass1 : updatePackage cfg files = some (
      (files.map (fun f => if f.1 = "package.json" then
          (f.1, dumpsPkgJson (J.obj (updateFields cfg.pkgVersion cfg.minDcosVersion l)))
        else f)).map (fun f => (f.1, pyReplace (origPfx cfg) cfg.releaseHttpDir f.2)),
      ((files.map (fun f => if f.1 = "package.json" then
          (f.1, dumpsPkgJson (J.obj (updateFields cfg.pkgVersion cfg.minDcosVersion l)))
        else f)).map (fun f => findallArtifacts (origPfx cfg) f.2)).flatten,
      (if c0 = dumpsPkgJson (J.obj (updateFields cfg.pkgVersion cfg.minDcosVersion l))
        then [] else ["package.json"]) ++
        ((files.map (fun f => if f.1 = "package.json" then
            (f.1, dumpsPkgJson (J.obj (updateFields cfg.pkgVersion cfg.minDcosVersion l)))
          else f)).filter
          (fun f => pyReplace (origPfx cfg) cfg.releaseHttpDir f.2 ≠ f.2)).map
          (fun f => f.1)) := by
    unfold updatePackage
    rw [hfind]
    dsimp only
    rw [hstepA]
  have hF2eq : (files.map (fun f => if f.1 = "package.json" then
        (f.1, dumpsPkgJson (J.obj (updateFields cfg.pkgVersion cfg.minDcosVersion l)))
      else f)).map (fun f => (f.1, pyReplace (origPfx cfg) cfg.releaseHttpDir f.2)) =
      files.map (fun f => (f.1, pyReplace (origPfx cfg) cfg.releaseHttpDir
        (if f.1 = "package.json" then
          dumpsPkgJson (J.obj (updateFields cfg.pkgVersion cfg.minDcosVersion l))
        else f.2))) := by
    rw [List.map_map]
    apply List.map_congr_left
    intro f _
    by_cases h : f.1 = "package.json" <;> simp [Function.comp, h]
  rw [hF2eq] at hpass1
  have hfind2 : (files.map (fun f => (f.1, pyReplace (origPfx cfg) cfg.releaseHttpDir
        (if f.1 = "package.json" then
          dumpsPkgJson (J.obj (updateFields cfg.pkgVersion cfg.minDcosVersion l))
        else f.2)))).find? (fun f => f.1 = "package.json") =
      some ("package.json", pyReplace (origPfx cfg) cfg.releaseHttpDir
        (dumpsPkgJson (J.obj (updateFields cfg.pkgVersion cfg.minDcosVersion l)))) := by
    have h := find_map_pairs (fun f => f.1 = "package.json")
      (fun f => pyReplace (origPfx cfg) cfg.releaseHttpDir
        (if f.1 = "package.json" then
          dumpsPkgJson (J.obj (updateFields cfg.pkgVersion cfg.minDcosVersion l))
        else f.2)) (fun f => rfl) files
    rw [hfind] at h
    exact h
  have hwfields := updateFields_wf cfg.pkgVersion cfg.minDcosVersion l
    (by simpa [wf, Bool.and_eq_true] using And.left (by simpa [wf, Bool.and_eq_true] using hwf : oSpine l = true ∧ wf l = true))
    (by exact (by simpa [wf, Bool.and_eq_true] using hwf : oSpine l = true ∧ wf l = true).2)
    hs1 hs2
  have hstep2 : stepA cfg
      (dumpsPkgJson (J.obj (updateFields cfg.pkgVersion cfg.minDcosVersion l))) =
      some (dumpsPkgJson (J.obj (updateFields cfg.pkgVersion cfg.minDcosVersion l))) :=
    stepA_of_fix cfg (updateFields cfg.pkgVersion cfg.minDcosVersion l)
      (updateFields_fixed cfg.pkgVersion cfg.minDcosVersion l)
      (by simp only [wf, Bool.and_eq_true]; exact hwfields)
  have hmem1 : ∀ f ∈ files.map (fun f => (f.1, pyReplace (origPfx cfg) cfg.releaseHttpDir
        (if f.1 = "package.json" then
          dumpsPkgJson (J.obj (updateFields cfg.pkgVersion cfg.minDcosVersion l))
        else f.2))),
      (if f.1 = "package.json" then
        ((f.1 : String),
          dumpsPkgJson (J.obj (updateFields cfg.pkgVersion cfg.minDcosVersion l)))
      else f) = f := by
    intro f hf
    obtain ⟨f', hf', rfl⟩ := List.mem_map.mp hf
    by_cases h : f'.1 = "package.json"
    · simp [h, hc1fix]
    · simp [h]
  have hmem2 : ∀ f ∈ files.map (fun f => (f.1, pyReplace (origPfx cfg) cfg.releaseHttpDir
        (if f.1 = "package.json" then
          dumpsPkgJson (J.obj (updateFields cfg.pkgVersion cfg.minDcosVersion l))
        else f.2))),
      pyReplace (origPfx cfg) cfg.releaseHttpDir f.2 = f.2 := by
    intro f hf
    obtain ⟨f', hf', rfl⟩ := List.mem_map.mp hf
    by_cases h : f'.1 = "package.json"
    · simp [h, hc1fix]
    · have hrep := pyReplace_id (origPfx cfg) cfg.releaseHttpDir
        (pyReplace (origPfx cfg) cfg.releaseHttpDir f'.2) (hB f' hf')
      simpa [h] using hrep
  have h1'' : (files.map (fun f => (f.1, pyReplace (origPfx cfg) cfg.releaseHttpDir
        (if f.1 = "package.json" then
          dumpsPkgJson (J.obj (updateFields cfg.pkgVersion cfg.minDcosVersion l))
        else f.2)))).map (fun f => if f.1 = "package.json" then
          ((f.1 : String),
            dumpsPkgJson (J.obj (updateFields cfg.pkgVersion cfg.minDcosVersion l)))
        else f) =
      files.map (fun f => (f.1, pyReplace (origPfx cfg) cfg.releaseHttpDir
        (if f.1 = "package.json" then
          dumpsPkgJson (J.obj (updateFields cfg.pkgVersion cfg.minDcosVersion l))
        else f.2))) :=
    map_eq_self_of_mem _ _ hmem1
  have h3 : (files.map (fun f => (f.1, pyReplace (origPfx cfg) cfg.releaseHttpDir
        (if f.1 = "package.json" then
          dumpsPkgJson (J.obj (updateFields cfg.pkgVersion cfg.minDcosVersion l))
        else f.2)))).map
        (fun f => (f.1, pyReplace (origPfx cfg) cfg.releaseHttpDir f.2)) =
      files.map (fun f => (f.1, pyReplace (origPfx cfg) cfg.releaseHttpDir
        (if f.1 = "package.json" then
          dumpsPkgJson (J.obj (updateFields cfg.pkgVersion cfg.minDcosVersion l))
        else f.2))) :=
    map_eq_self_of_mem _ _ (fun f hf => by rw [hmem2 f hf])
  have h4 : (files.map (fun f => (f.1, pyReplace (origPfx cfg) cfg.releaseHttpDir
        (if f.1 = "package.json" then
          dumpsPkgJson (J.obj (updateFields cfg.pkgVersion cfg.minDcosVersion l))
        else f.2)))).filter
        (fun f => pyReplace (origPfx cfg) cfg.releaseHttpDir f.2 ≠ f.2) = [] :=
    filter_eq_nil_of_mem _ _ (fun f hf => by simp [hmem2 f hf])
  have hpass2 : updatePackage cfg
      (files.map (fun f => (f.1, pyReplace (origPfx cfg) cfg.releaseHttpDir
        (if f.1 = "package.json" then
          dumpsPkgJson (J.obj (updateFields cfg.pkgVersion cfg.minDcosVersion l))
        else f.2)))) =
      some (files.map (fun f => (f.1, pyReplace (origPfx cfg) cfg.releaseHttpDir
        (if f.1 = "package.json" then
          dumpsPkgJson (J.obj (updateFields cfg.pkgVersion cfg.minDcosVersion l))
        else f.2))),
      ((files.map (fun f => (f.1, pyReplace (origPfx cfg) cfg.releaseHttpDir
        (if f.1 = "package.json" then
          dumpsPkgJson (J.obj (updateFields cfg.pkgVersion cfg.minDcosVersion l))
        else f.2)))).map (fun f => findallArtifacts (origPfx cfg) f.2)).flatten,
      []) := by
    unfold updatePackage
    rw [hfind2]
    dsimp only
    rw [hc1fix, hstep2]
    dsimp only
    rw [h1'', h3, h4]
    simp
  exact ⟨_, _, _, _, hpass1, hpass2⟩

/-- Witness for C7 at a concrete configuration and package directory:
the second pass over the rewritten directory is a no-op. -/
theorem c7_rewrite_idempotent_witness :
    ∃ files2 urls1 w1 urls2,
      updatePackage ⟨"1.0", "0", "https://h/p/stub-universe-x.zip", "https://d/r"⟩
          [("package.json", "\x7b\x7d"), ("marathon.json", "https://h/p/a")] =
        some (files2, urls1, w1) ∧
      updatePackage ⟨"1.0", "0", "https://h/p/stub-universe-x.zip", "https://d/r"⟩
          files2 = some (files2, urls2, []) :=
  c7_rewrite_idempotent ⟨"1.0", "0", "https://h/p/stub-universe-x.zip", "https://d/r"⟩
    [("package.json", "\x7b\x7d"), ("marathon.json", "https://h/p/a")]
    J.onil "\x7b\x7d" (by decide) (by decide) (by decide) (by decide) (by decide)
    (by decide) (by decide)

/-- Counterexample to C7 as stated: when the destination prefix
`https://h/p/x` contains the original artifact prefix `https://h/p`, the
second pass rewrites `marathon.json` again (`https://h/p/x/a` becomes
`https://h/p/x/x/a`) and reports a write, so the rewrite is not
unconditionally idempotent. -/
theorem c7_counterexample :
    updatePackage ⟨"1.0", "0", "https://h/p/stub-universe-x.zip", "https://h/p/x"⟩
        [("package.json", "\x7b\x7d"), ("marathon.json", "https://h/p/a")] =
      some ([("package.json",
          "\x7b\n  \"packagingVersion\": \"3.0\",\n  \"version\": \"1.0\"\n\x7d\n"),
        ("marathon.json", "https://h/p/x/a")], [],
        ["package.json", "marathon.json"]) ∧
    updatePackage ⟨"1.0", "0", "https://h/p/stub-universe-x.zip", "https://h/p/x"⟩
        [("package.json",
          "\x7b\n  \"packagingVersion\": \"3.0\",\n  \"version\": \"1.0\"\n\x7d\n"),
        ("marathon.json", "https://h/p/x/a")] =
      some ([("package.json",
          "\x7b\n  \"packagingVersion\": \"3.0\",\n  \"version\": \"1.0\"\n\x7d\n"),
        ("marathon.json", "https://h/p/x/x/a")], [],
        ["marathon.json"]) ∧
    ("https://h/p/x/x/a" : String) ≠ "https://h/p/x/a" := by
  refine ⟨by decide, by decide, by decide⟩

end ReleaseBuilder
